import Mathlib

/-!
Shallow embedding of `src/gcp_scanner/scanner.py` (the identity-graph
traversal engine and result persister of the gcp_scanner repository).

Python values flowing through the scanner (JSON-like dictionaries, lists,
strings, booleans) are modelled by the inductive type `JVal`; Python
dictionaries are insertion-ordered association lists (`aget` / `aset` mirror
`d[k]` / `d[k] = v` semantics: an update keeps the key's position, a new key
is appended, exactly as CPython dicts behave).  External collaborators
(credential adapters, crawler plugins, client factories, the impersonation
API) are out of scope per the design and are modelled as an explicit
environment `Env` of oracle functions.  Python exceptions that the scanner
does not catch are modelled with `Except PyErr`.
-/

namespace GcpScanner

/-- JSON-like Python values handled by the scanner. -/
inductive JVal : Type where
  | null : JVal
  | bool : Bool → JVal
  | int : Int → JVal
  | str : String → JVal
  | list : List JVal → JVal
  | obj : List (String × JVal) → JVal

/-- Dictionary lookup `d.get(key)` over an insertion-ordered assoc list. -/
def aget {α : Type} : List (String × α) → String → Option α
  | [], _ => none
  | (k, v) :: rest, key => if k = key then some v else aget rest key

/-- Dictionary assignment `d[key] = v`: updating an existing key keeps its
position, a fresh key is appended (CPython dict semantics). -/
def aset {α : Type} : List (String × α) → String → α → List (String × α)
  | [], key, v => [(key, v)]
  | (k, w) :: rest, key, v =>
    if k = key then (k, v) :: rest else (k, w) :: aset rest key v

/-- `d.get(key, default)`. -/
def agetD {α : Type} (d : List (String × α)) (key : String) (v : α) : α :=
  (aget d key).getD v

/-- Python `v is True` (identity with the `True` singleton). -/
def isTrueVal : JVal → Bool
  | .bool b => b
  | _ => false

/-- Python `v is False` (identity with the `False` singleton). -/
def isFalseVal : JVal → Bool
  | .bool b => !b
  | _ => false

/-- Python truthiness of a `JVal` (`bool(v)`). -/
def truthy : JVal → Bool
  | .null => false
  | .bool b => b
  | .int n => n != 0
  | .str s => !s.data.isEmpty
  | .list xs => !xs.isEmpty
  | .obj kvs => !kvs.isEmpty

/-- Helper for `str.split(sep)` restricted to one-character separators:
splits the character list, accumulating the current chunk reversed. -/
def splitCharAux (c : Char) : List Char → List Char → List (List Char)
  | [], acc => [acc.reverse]
  | x :: xs, acc =>
    if x = c then acc.reverse :: splitCharAux c xs []
    else splitCharAux c xs (x :: acc)

/-- Python `s.split(c)` for a single-character separator: `"".split(':') =
[""]`, `"a:b:c".split(':') = ["a","b","c"]`. -/
def splitOnChar (s : String) (c : Char) : List String :=
  (splitCharAux c s.data []).map (fun cs => String.mk cs)

/-- Python `s.startswith(p)`. -/
def strStartsWith (s p : String) : Bool := p.data.isPrefixOf s.data

/-- Python `c in s` for a single character. -/
def strContainsChar (s : String) (c : Char) : Bool := s.data.contains c

/-- Is `needle` a contiguous sublist of the second argument? -/
def listIsInfix (needle : List Char) : List Char → Bool
  | [] => needle.isEmpty
  | c :: rest => needle.isPrefixOf (c :: rest) || listIsInfix needle rest

/-- Python `needle in hay` for strings (substring test). -/
def strContainsSub (hay needle : String) : Bool := listIsInfix needle.data hay.data

/-- A scan configuration: resource-type name mapped to its settings
dictionary (`scanner.py` reads the settings through `.get`, so settings are
modelled as dictionaries of `JVal`).  The whole configuration is optional
(`None` in the source). -/
abbrev Config := List (String × List (String × JVal))

/-- `scanner.is_set` (scanner.py lines 95-99): `None` configuration means
everything is fetched; otherwise return `config.get(setting, {}).get('fetch',
False)` (the raw Python value — callers test truthiness or identity). -/
def is_set (config : Option Config) (config_setting : String) : JVal :=
  match config with
  | none => JVal.bool true
  | some c =>
    match aget c config_setting with
    | none => JVal.bool false
    | some obj => agetD obj "fetch" (JVal.bool false)

/-- `scanner.light_version_scan_schema` (scanner.py lines 45-60): the reduced
field list per resource type used for light output. -/
def light_version_scan_schema : List (String × List String) :=
  [("compute_instances", ["name", "zone", "machineType", "networkInterfaces",
                          "status"]),
   ("compute_images", ["name", "status", "diskSizeGb", "sourceDisk"]),
   ("machine_images", ["name", "description", "status", "sourceInstance",
                       "totalStorageBytes", "savedDisks"]),
   ("compute_disks", ["name", "sizeGb", "zone", "status", "sourceImage",
                      "users"]),
   ("compute_snapshots", ["name", "status", "sourceDisk", "downloadBytes"]),
   ("managed_zones", ["name", "dnsName", "description", "nameServers"]),
   ("sql_instances", ["name", "region", "ipAddresses", "databaseVersion",
                      "state"]),
   ("cloud_functions", ["name", "eventTrigger", "status", "entryPoint",
                        "serviceAccountEmail"]),
   ("kms", ["name", "primary", "purpose", "createTime"]),
   ("services", ["name"])]

/-- `scanner.crawl_client_map` (scanner.py lines 65-92): resource type to
cloud-service family. -/
def crawl_client_map : List (String × String) :=
  [("app_services", "appengine"),
   ("bigtable_instances", "bigtableadmin"),
   ("bq", "bigquery"),
   ("cloud_functions", "cloudfunctions"),
   ("compute_disks", "compute"),
   ("compute_images", "compute"),
   ("compute_instances", "compute"),
   ("compute_snapshots", "compute"),
   ("dns_policies", "dns"),
   ("endpoints", "servicemanagement"),
   ("filestore_instances", "file"),
   ("firewall_rules", "compute"),
   ("iam_policy", "cloudresourcemanager"),
   ("kms", "cloudkms"),
   ("machine_images", "compute"),
   ("managed_zones", "dns"),
   ("project_info", "cloudresourcemanager"),
   ("pubsub_subs", "pubsub"),
   ("services", "serviceusage"),
   ("service_accounts", "iam"),
   ("sourcerepos", "sourcerepo"),
   ("spanner_instances", "spanner"),
   ("sql_instances", "sqladmin"),
   ("static_ips", "compute"),
   ("storage_buckets", "storage"),
   ("subnets", "compute")]

/-- A result document / record: a Python dictionary of `JVal`s. -/
abbrev Doc := List (String × JVal)

/-- The light-scan entry comprehension `{key: scan_result.get(key) for key in
schema}` (scanner.py line 119).  `none` models the `AttributeError` raised
when the entry is not a dictionary. -/
def light_entry (schema : List String) : JVal → Option JVal
  | .obj kvs => some (.obj (schema.map (fun k => (k, agetD kvs k JVal.null))))
  | _ => none

/-- One `light_results` list (scanner.py lines 117-119).  `none` models a
raised exception. -/
def light_list (schema : List String) : List JVal → Option (List JVal)
  | [] => some []
  | e :: es =>
    match light_entry schema e, light_list schema es with
    | some e', some es' => some (e' :: es')
    | _, _ => none

/-- Iterating `project_data.get(gcp_resource, {})` (scanner.py line 116-118):
a list yields its elements; the `{}` default yields nothing; iterating any
other value raises inside the loop body (`none`). -/
def light_resource (schema : List String) : JVal → Option (List JVal)
  | .list es => light_list schema es
  | .obj [] => some []
  | _ => none

/-- Processing of one project's data for one resource type of the reduced
schema (scanner.py lines 116-121): replace the resource key by the filtered
list.  `none` models a raised exception (non-dictionary project data). -/
def light_project_step (rt : String) (schema : List String) : JVal → Option JVal
  | .obj kvs =>
    match light_resource schema (agetD kvs rt (JVal.obj [])) with
    | some ls => some (.obj (aset kvs rt (.list ls)))
    | none => none
  | _ => none

/-- Map `light_project_step` over all projects, keeping keys. -/
def light_projects (rt : String) (schema : List String) :
    List (String × JVal) → Option (List (String × JVal))
  | [] => some []
  | (pn, pd) :: rest =>
    match light_project_step rt schema pd, light_projects rt schema rest with
    | some pd', some rest' => some ((pn, pd') :: rest')
    | _, _ => none

/-- One iteration of the outer loop of the light branch of
`scanner.save_results` (scanner.py lines 113-123) for a single
`(gcp_resource, schema)` pair. -/
def light_step (rt : String) (schema : List String) (res_data : Doc) : Option Doc :=
  match agetD res_data "projects" (JVal.obj []) with
  | .obj ps =>
    match light_projects rt schema ps with
    | some ps' => some (aset res_data "projects" (.obj ps'))
    | none => none
  | _ => none

/-- Fold `light_step` over a schema list. -/
def light_fold : List (String × List String) → Doc → Option Doc
  | [], res => some res
  | (rt, schema) :: rest, res =>
    match light_step rt schema res with
    | some res' => light_fold rest res'
    | none => none

/-- The complete light branch of `scanner.save_results` (scanner.py lines
111-123): every resource type of `light_version_scan_schema` in order. -/
def apply_light (res_data : Doc) : Option Doc :=
  light_fold light_version_scan_schema res_data

/-- How the light-schema pass for the resource types of `L` transforms one
project's dictionary: keys not named in `L` keep their exact values, and
every resource type of `L` ends up mapped to the filtered list obtained by
`light_resource` from its original value (an absent type contributing the
`{}` default, hence the empty list). -/
def lightKeysRel (L : List (String × List String))
    (kvs kvs' : List (String × JVal)) : Prop :=
  (∀ k, k ∉ L.map Prod.fst → aget kvs' k = aget kvs k) ∧
  (∀ rt schema, (rt, schema) ∈ L →
    ∃ ls, aget kvs' rt = some (JVal.list ls) ∧
      light_resource schema (agetD kvs rt (JVal.obj [])) = some ls)

/-- `lightKeysRel` lifted to the project value: a dictionary maps to a
dictionary related by `lightKeysRel`, and for a non-empty schema list the
input must have been a dictionary. -/
def lightValRel (L : List (String × List String)) (pd pd' : JVal) : Prop :=
  (∀ kvs, pd = JVal.obj kvs →
    ∃ kvs', pd' = JVal.obj kvs' ∧ lightKeysRel L kvs kvs') ∧
  (L ≠ [] → ∃ kvs, pd = JVal.obj kvs)

/-- Uncaught Python exceptions that can escape `crawl_loop`. -/
inductive PyErr : Type where
  | unboundLocal : String → PyErr
  | keyError : String → PyErr
  | indexError : PyErr
  | typeError : PyErr

/-- One binding of an IAM policy, as consumed by
`scanner.get_sas_for_impersonation`: the `members` list of the binding
dictionary (`entry.get('members', [])`, an absent key giving `[]`). -/
structure PolicyEntry : Type where
  members : List String

/-- The member test of `scanner.get_sas_for_impersonation` (scanner.py
line 355): `sa_name.startswith('serviceAccount') and '@' in sa_name`. -/
def memberHit (sa_name : String) : Bool :=
  strStartsWith sa_name "serviceAccount" && strContainsChar sa_name '@'

/-- The inner member loop of `scanner.get_sas_for_impersonation`
(scanner.py lines 354-358), threading the accumulator `list_of_sas`.
A member that starts with `serviceAccount` and contains `@` but has no `:`
makes `sa_name.split(':')[1]` raise `IndexError`. -/
def sas_from_members (list_of_sas : List String) :
    List String → Except PyErr (List String)
  | [] => .ok list_of_sas
  | sa_name :: rest =>
    if memberHit sa_name then
      match (splitOnChar sa_name ':').get? 1 with
      | none => .error .indexError
      | some account_name =>
        sas_from_members
          (if account_name ∈ list_of_sas then list_of_sas
           else list_of_sas ++ [account_name]) rest
    else sas_from_members list_of_sas rest

/-- Fold `sas_from_members` over the policy entries (the outer loop of
scanner.py lines 353-358). -/
def sas_from_policy (list_of_sas : List String) :
    List PolicyEntry → Except PyErr (List String)
  | [] => .ok list_of_sas
  | entry :: rest =>
    match sas_from_members list_of_sas entry.members with
    | .ok acc => sas_from_policy acc rest
    | .error e => .error e

/-- `scanner.get_sas_for_impersonation` (scanner.py lines 338-360).  The
input is `None` (`none`) or a list of policy entries; `if not iam_policy`
returns `[]` for both `None` and the empty list. -/
def get_sas_for_impersonation (iam_policy : Option (List PolicyEntry)) :
    Except PyErr (List String) :=
  match iam_policy with
  | none => .ok []
  | some pol => if pol.isEmpty then .ok [] else sas_from_policy [] pol

/-- Everything after the first `:` of a string (the "component after the
first `:`" in the words of the specification). -/
def afterFirstColon (s : String) : String :=
  String.intercalate ":" ((splitOnChar s ':').tail)

/-- Case-sensitive exact-match deduplication keeping first occurrences,
with an accumulator of labels already seen. -/
def dedupFirstAux (seen : List String) : List String → List String
  | [] => []
  | a :: as =>
    if a ∈ seen then dedupFirstAux seen as
    else a :: dedupFirstAux (seen ++ [a]) as

/-- Case-sensitive exact-match deduplication keeping first occurrences. -/
def dedupFirst (l : List String) : List String := dedupFirstAux [] l

/-- The members of all entries that the specification counts as
service-identity principals, with their extracted addresses, in policy
order. -/
def specCandidates : List PolicyEntry → List String
  | [] => []
  | entry :: rest =>
    entry.members.filterMap (fun m =>
      if strStartsWith m "serviceAccount:" && strContainsChar m '@' then
        some (afterFirstColon m)
      else none) ++ specCandidates rest

/-- Modelled from the spec: `deriveImpersonationCandidates` as §4.1 words it
(this is the specification-side definition, to be compared with the
source-side `get_sas_for_impersonation`): every binding member that is a
service-identity principal — the recognized prefix `serviceAccount` followed
by `:` and containing an `@` — contributes the component after the first
`:`; collected as a set with case-sensitive exact-match dedup (kept here in
first-occurrence order); empty when the policy is absent or empty. -/
def deriveImpersonationCandidates (iam_policy : Option (List PolicyEntry)) :
    List String :=
  match iam_policy with
  | none => []
  | some pol => dedupFirst (specCandidates pol)

/-- An opaque credential handle (the core never inspects it, only passes it
to the external factories, which the environment models). -/
abbrev Cred := String

/-- One `(sa_name, credentials, chain_so_far)` tuple of
`initial_sa_tuples` / the service-account queue. -/
structure SaTuple : Type where
  sa_name : String
  credentials : Cred
  chain_so_far : List String

/-- A project dictionary as returned by the `project_list` / `project_info`
crawlers (accessed by the scanner only through `project['projectId']`). -/
abbrev Project := List (String × JVal)

/-- The external collaborators of `crawl_loop`, out of scope per the design
(§1 of the spec): crawler plugins obtained from `CrawlerFactory`, clients
from `ClientFactory`, the GKE helpers and `credsdb.impersonate_sa`.  Each is
an oracle keyed by the same data the source passes to it.  `project_info`
returns `[]` for a falsy result (`None` or `{}`); `impersonate_sa` returns
`none` when the call raises (the source catches that exception);
`iam_policy_crawl` may return `none` for a `None` policy. -/
structure Env : Type where
  scopes : Cred → JVal
  project_list : Cred → List Project
  project_info : String → Cred → Project
  crawl : String → String → String → Cred → List (String × JVal) → JVal
  gke_clusters : String → Cred → JVal
  gke_images : String → Cred → JVal
  iam_policy_crawl : String → Cred → Option (List PolicyEntry)
  impersonate_sa : Cred → String → Option Cred

/-- The on-disk output directory: path mapped to the sequence of JSON
documents that have been written (appended) to that file.  `open(path, 'x')`
creates an empty file (`[]`); `save_results` appends one document. -/
abbrev Files := List (String × List Doc)

/-- `open(output_path, 'x')` (scanner.py lines 210-216): create the file if
absent; if it exists the `FileExistsError` is caught and merely logged, so
the state is unchanged and execution continues. -/
def open_x (fs : Files) (path : String) : Files :=
  match aget fs path with
  | some _ => fs
  | none => aset fs path []

/-- Appending one serialized document to a file (`open(res_path, 'a')`
followed by `write`, scanner.py lines 128-129). -/
def file_append (fs : Files) (path : String) (doc : Doc) : Files :=
  match aget fs path with
  | some docs => aset fs path (docs ++ [doc])
  | none => aset fs path [doc]

/-- `scanner.save_results` (scanner.py lines 102-129): apply the reduced
schema when `is_light`, serialize, and append to `res_path`.  The result is
the updated filesystem together with the document that was written; `none`
models an exception raised by the light-schema loop. -/
def save_results (fs : Files) (res_data : Doc) (res_path : String)
    (is_light : Bool) : Option (Files × Doc) :=
  match (if is_light then apply_light res_data else some res_data) with
  | some sa_results_data => some (file_append fs res_path sa_results_data, sa_results_data)
  | none => none

/-- The mutable state of one `crawl_loop` call that the per-project body
touches: the frontier queue (FIFO: dequeue at the head, enqueue at the
tail), the output directory, the caller's scan configuration (aliased
settings dictionaries are mutated in place, modelled by updating the
configuration), and the function-scoped local variable `iam_policy`
(`none` while still unassigned). -/
structure WorldState : Type where
  queue : List SaTuple
  files : Files
  scan_config : Option Config
  iam_policy_var : Option (Option (List PolicyEntry))

/-- The full loop state: the world plus the `processed_sas` visited set
(modelled as the list of labels in insertion order). -/
structure RunState : Type where
  world : WorldState
  processed_sas : List String

/-- The resource-crawling dispatch loop `for crawler_name, client_name in
crawl_client_map.items()` (scanner.py lines 218-235).  For an enabled type
with a non-`None` configuration, `crawler_config = scan_config.get(
crawler_name)` aliases the caller's settings dictionary, so setting
`'gcs_output_path'` mutates the configuration; with a `None` configuration a
fresh `{}` is used.  `scan_config.get` returning `None` (an enabled type
missing from the configuration, impossible because `is_set` then yields
`False`) would raise a `TypeError` on the item assignment. -/
def crawl_resources (env : Env) (credentials : Cred)
    (project_id gcs_output_path : String) :
    List (String × String) → Option Config → Doc →
    Except PyErr (Option Config × Doc)
  | [], sc, pr => .ok (sc, pr)
  | (crawler_name, client_name) :: rest, sc, pr =>
    if truthy (is_set sc crawler_name) then
      match sc with
      | none =>
        let crawler_config := aset [] "gcs_output_path" (JVal.str gcs_output_path)
        let pr' := aset pr crawler_name
          (env.crawl crawler_name client_name project_id credentials crawler_config)
        crawl_resources env credentials project_id gcs_output_path rest none pr'
      | some c =>
        match aget c crawler_name with
        | none => .error .typeError
        | some settings =>
          let settings' := aset settings "gcs_output_path" (JVal.str gcs_output_path)
          let c' := aset c crawler_name settings'
          let pr' := aset pr crawler_name
            (env.crawl crawler_name client_name project_id credentials settings')
          crawl_resources env credentials project_id gcs_output_path rest (some c') pr'
    else crawl_resources env credentials project_id gcs_output_path rest sc pr

/-- The impersonation attempt loop `for candidate_service_account in
project_service_accounts` (scanner.py lines 271-285): a successful
`credsdb.impersonate_sa` enqueues `(candidate, creds_impersonated,
updated_chain)` and appends the candidate to `service_account_edges`; a
failure is logged and skipped.  Returns the enqueued tuples and the edge
labels, in order. -/
def try_impersonation (env : Env) (credentials : Cred)
    (updated_chain : List String) :
    List String → List SaTuple × List String
  | [] => ([], [])
  | candidate :: rest =>
    let r := try_impersonation env credentials updated_chain rest
    match env.impersonate_sa credentials candidate with
    | some creds_impersonated =>
      (⟨candidate, creds_impersonated, updated_chain⟩ :: r.1, candidate :: r.2)
    | none => r

/-- The `impers` value (scanner.py lines 254-257): the `service_accounts`
configuration entry, or `{'impersonate': False}` when the configuration is
`None`. -/
def impers_of (sc : Option Config) : Option (List (String × JVal)) :=
  match sc with
  | some c => aget c "service_accounts"
  | none => some [("impersonate", JVal.bool false)]

/-- The value of the function-scoped local `iam_policy` after the guarded
fresh fetch (scanner.py lines 262-268): assigned from the `iam_policy`
crawler exactly when `is_set(scan_config, 'iam_policy') is False`,
otherwise left as it was (`none` = still unassigned). -/
def iam_policy_fetch (env : Env) (credentials : Cred) (project_id : String)
    (sc : Option Config) (ipv : Option (Option (List PolicyEntry))) :
    Option (Option (List PolicyEntry)) :=
  if isFalseVal (is_set sc "iam_policy") then
    some (env.iam_policy_crawl project_id credentials)
  else ipv

/-- The escalation block of the per-project body (scanner.py lines 250-285):
initialize `service_account_edges`, read the `service_accounts` entry, and
when `impers.get('impersonate', False) is True` read the local variable
`iam_policy` after the guarded fresh fetch — raising `UnboundLocalError`
when it was never assigned — and run discovery plus the impersonation
attempts.  Returns the updated `iam_policy` variable, queue and project
result. -/
def escalation_step (env : Env) (credentials : Cred) (project_id : String)
    (updated_chain : List String) (sc : Option Config)
    (ipv : Option (Option (List PolicyEntry))) (queue : List SaTuple)
    (pr : Doc) :
    Except PyErr (Option (Option (List PolicyEntry)) × List SaTuple × Doc) :=
  let pr := aset pr "service_account_edges" (JVal.list [])
  match impers_of sc with
  | none => .ok (ipv, queue, pr)
  | some o =>
    if isTrueVal (agetD o "impersonate" (JVal.bool false)) then
      match iam_policy_fetch env credentials project_id sc ipv with
      | none => .error (.unboundLocal "iam_policy")
      | some iam_policy =>
        match get_sas_for_impersonation iam_policy with
        | .error e => .error e
        | .ok project_service_accounts =>
          let r :=
            try_impersonation env credentials updated_chain project_service_accounts
          .ok (some iam_policy, queue ++ r.1,
               aset pr "service_account_edges" (JVal.list (r.2.map JVal.str)))
    else .ok (ipv, queue, pr)

/-- The per-project target filter `if target_project and target_project not
in project['projectId']` (scanner.py line 196). -/
def target_skip (target_project : Option String) (project_id : String) : Bool :=
  match target_project with
  | none => false
  | some t => !t.data.isEmpty && !strContainsSub project_id t

/-- The output file path `Path(out_dir, f'{project_id}-{scan_time_suffix}
.json')` (scanner.py lines 206-207). -/
def output_file_path (out_dir project_id scan_time_suffix : String) : String :=
  out_dir ++ "/" ++ (project_id ++ "-" ++ scan_time_suffix ++ ".json")

/-- The GCS output path `Path(out_dir, f'gcs-{output_file_name}')`
(scanner.py line 208). -/
def gcs_file_path (out_dir project_id scan_time_suffix : String) : String :=
  out_dir ++ "/" ++ ("gcs-" ++ (project_id ++ "-" ++ scan_time_suffix ++ ".json"))

/-- The auto-vivified `sa_results['projects']` mapping (scanner.py line
201): the existing dictionary, or a fresh empty one. -/
def projectsOf (sa_results : Doc) : List (String × JVal) :=
  match aget sa_results "projects" with
  | some (.obj ps) => ps
  | _ => []

/-- The auto-vivified `sa_results['projects'][project_id]` dictionary
(scanner.py line 201). -/
def projectResult₀ (sa_results : Doc) (project_id : String) : Doc :=
  match aget (projectsOf sa_results) project_id with
  | some (.obj pr) => pr
  | _ => []

/-- The two GKE crawls (scanner.py lines 237-248), each guarded by
`is_set`. -/
def gke_step (env : Env) (sc : Option Config) (project_id : String)
    (credentials : Cred) (pr : Doc) : Doc :=
  let pr₃ :=
    if truthy (is_set sc "gke_clusters") then
      aset pr "gke_clusters" (env.gke_clusters project_id credentials)
    else pr
  if truthy (is_set sc "gke_images") then
    aset pr₃ "gke_images" (env.gke_images project_id credentials)
  else pr₃

/-- The body of `for project in project_list` (scanner.py lines 195-291):
filter on the target project, reserve the output path, dispatch the enabled
resource crawlers, run the GKE helpers, run the escalation block, persist
the record and clear it (`sa_results.clear()`).  Project identifiers are
modelled as strings; a missing `projectId` key raises `KeyError`.  Returns
the world, the record accumulator as left for the next iteration, and the
`(path, document)` this iteration wrote, if any. -/
def processProject (env : Env) (out_dir scan_time_suffix : String)
    (light_scan : Bool) (target_project : Option String) (sa : SaTuple)
    (w : WorldState) (sa_results : Doc) (project : Project) :
    Except PyErr (WorldState × Doc × Option (String × Doc)) :=
  match aget project "projectId" with
  | none => .error (.keyError "projectId")
  | some JVal.null | some (JVal.bool _) | some (JVal.int _)
  | some (JVal.list _) | some (JVal.obj _) => .error .typeError
  | some (JVal.str project_id) =>
    if target_skip target_project project_id then .ok (w, sa_results, none)
    else
      match crawl_resources env sa.credentials project_id
          (gcs_file_path out_dir project_id scan_time_suffix) crawl_client_map
          w.scan_config
          (aset (projectResult₀ sa_results project_id) "project_info"
            (JVal.obj project)) with
      | .error e => .error e
      | .ok (sc', pr₂) =>
        match escalation_step env sa.credentials project_id
            (sa.chain_so_far ++ [sa.sa_name]) sc' w.iam_policy_var w.queue
            (gke_step env sc' project_id sa.credentials pr₂) with
        | .error e => .error e
        | .ok (ipv', queue', pr₅) =>
          match save_results
              (open_x w.files (output_file_path out_dir project_id scan_time_suffix))
              (aset sa_results "projects"
                (JVal.obj (aset (projectsOf sa_results) project_id (JVal.obj pr₅))))
              (output_file_path out_dir project_id scan_time_suffix) light_scan with
          | none => .error .typeError
          | some (files₂, doc) =>
            .ok (⟨queue', files₂, sc', ipv'⟩, [],
                 some (output_file_path out_dir project_id scan_time_suffix, doc))

/-- Folding `processProject` over the project list, accumulating the
written documents. -/
def processProjects (env : Env) (out_dir scan_time_suffix : String)
    (light_scan : Bool) (target_project : Option String) (sa : SaTuple) :
    List Project → WorldState → Doc → List (String × Doc) →
    Except PyErr (WorldState × List (String × Doc))
  | [], w, _, acc => .ok (w, acc)
  | project :: rest, w, sa_results, acc =>
    match processProject env out_dir scan_time_suffix light_scan
        target_project sa w sa_results project with
    | .error e => .error e
    | .ok (w', sa_results', written) =>
      processProjects env out_dir scan_time_suffix light_scan target_project
        sa rest w' sa_results' (acc ++ written.toList)

/-- The project-list entry a forced project contributes (scanner.py lines
179-192): the fetched metadata when truthy, otherwise the synthesized
`{'projectId': ..., 'projectNumber': 'N/A'}` placeholder. -/
def forced_project_entry (env : Env) (credentials : Cred)
    (force_project_id : String) : Project :=
  let res := env.project_info force_project_id credentials
  if !res.isEmpty then res
  else [("projectId", JVal.str force_project_id),
        ("projectNumber", JVal.str "N/A")]

/-- The forced-project augmentation of the project list (scanner.py lines
177-192). -/
def forced_projects (env : Env) (credentials : Cred)
    (force_projects : List String) : List Project :=
  force_projects.map (forced_project_entry env credentials)

/-- Processing of one dequeued identity (scanner.py lines 161-291, after the
visited-set bookkeeping): build the fresh record with the chain, the label
and the token scopes, list the accessible projects, append the forced
projects, and fold the per-project body.  The visited set is untouched here
(the source's project loop never modifies `processed_sas`). -/
def processIdentity (env : Env) (out_dir scan_time_suffix : String)
    (light_scan : Bool) (target_project : Option String)
    (force_projects : List String) (sa : SaTuple) (w : WorldState) :
    Except PyErr (WorldState × List (String × Doc)) :=
  let sa_results : Doc :=
    [("service_account_chain", JVal.list (sa.chain_so_far.map JVal.str)),
     ("current_service_account", JVal.str sa.sa_name),
     ("token_scopes", env.scopes sa.credentials)]
  let project_list₀ := env.project_list sa.credentials
  let project_list :=
    if force_projects.isEmpty then project_list₀
    else project_list₀ ++ forced_projects env sa.credentials force_projects
  processProjects env out_dir scan_time_suffix light_scan target_project sa
    project_list w sa_results []

/-- The main loop `while not context.service_account_queue.empty()`
(scanner.py lines 153-291), with explicit fuel for the unbounded frontier:
dequeue, silently drop an already-visited label, otherwise add the label to
`processed_sas` and process the identity.  Any uncaught exception of the
body aborts the whole loop. -/
def crawl_loop_go (env : Env) (out_dir scan_time_suffix : String)
    (light_scan : Bool) (target_project : Option String)
    (force_projects : List String) :
    Nat → RunState → Except PyErr RunState
  | 0, st => .ok st
  | fuel + 1, st =>
    match st.world.queue with
    | [] => .ok st
    | sa :: rest =>
      if sa.sa_name ∈ st.processed_sas then
        crawl_loop_go env out_dir scan_time_suffix light_scan target_project
          force_projects fuel ⟨{ st.world with queue := rest }, st.processed_sas⟩
      else
        match processIdentity env out_dir scan_time_suffix light_scan
            target_project force_projects sa { st.world with queue := rest } with
        | .error e => .error e
        | .ok (w', _) =>
          crawl_loop_go env out_dir scan_time_suffix light_scan target_project
            force_projects fuel ⟨w', st.processed_sas ++ [sa.sa_name]⟩

/-- `scanner.crawl_loop` (scanner.py lines 132-291).  The run timestamp
`scan_time_suffix` (line 148) is an input of the model; the initial context
is modelled from the spec: `SpiderContext` (a collaborator outside this
file) seeds the FIFO frontier with `initial_sa_tuples`, and
`processed_sas = set()` starts empty.  The function-scoped local
`iam_policy` starts unassigned. -/
def crawl_loop (env : Env) (initial_sa_tuples : List SaTuple)
    (out_dir : String) (scan_config : Option Config) (light_scan : Bool)
    (target_project : Option String) (force_projects : List String)
    (scan_time_suffix : String) (fuel : Nat) : Except PyErr RunState :=
  crawl_loop_go env out_dir scan_time_suffix light_scan target_project
    force_projects fuel ⟨⟨initial_sa_tuples, [], scan_config, none⟩, []⟩

/-!
Concrete environments and runs, used by the closed counterexample and
witness theorems below.
-/

/-- A minimal environment: every identity sees the single project `p1`,
every crawler returns an empty list, impersonation always fails. -/
def trivEnv : Env :=
  { scopes := fun _ => JVal.null,
    project_list := fun _ => [[("projectId", JVal.str "p1")]],
    project_info := fun _ _ => [],
    crawl := fun _ _ _ _ _ => JVal.list [],
    gke_clusters := fun _ _ => JVal.list [],
    gke_images := fun _ _ => JVal.list [],
    iam_policy_crawl := fun _ _ => some [],
    impersonate_sa := fun _ _ => none }

/-- `trivEnv` but every identity sees the two projects `p1`, `p2`. -/
def twoProjEnv : Env :=
  { trivEnv with
    project_list := fun _ =>
      [[("projectId", JVal.str "p1")], [("projectId", JVal.str "p2")]] }

/-- `trivEnv` but no projects are listable and `project_info` fails
(returns a falsy result), so forced projects get placeholders. -/
def noProjEnv : Env :=
  { trivEnv with project_list := fun _ => [] }

/-- `noProjEnv` but every resource crawler returns `None`. -/
def nullCrawlEnv : Env :=
  { noProjEnv with crawl := fun _ _ _ _ _ => JVal.null }

/-- `trivEnv` but the project IAM policy grants `serviceAccount:b@x.iam`
and impersonation always succeeds, minting the handle `t-` ++ label. -/
def escEnv : Env :=
  { trivEnv with
    iam_policy_crawl := fun _ _ => some [⟨["serviceAccount:b@x.iam"]⟩],
    impersonate_sa := fun _ c => some ("t-" ++ c) }

/-- Seed identity `a`. -/
def saA : SaTuple := ⟨"a", "ca", []⟩

/-- Seed identity `b`. -/
def saB : SaTuple := ⟨"b", "cb", []⟩

/-- A world at the start of a run, with the empty (but non-`None`)
configuration `{}`. -/
def w0 : WorldState := ⟨[], [], some [], none⟩

/-- The record accumulator as it stands when identity `a`'s project loop
begins (scanner.py lines 162-167). -/
def init3 : Doc :=
  [("service_account_chain", JVal.list []),
   ("current_service_account", JVal.str "a"),
   ("token_scopes", JVal.null)]

/-- The per-project result produced for project `pid` under the empty
configuration. -/
def prP (pid : String) : JVal :=
  JVal.obj [("project_info", JVal.obj [("projectId", JVal.str pid)]),
            ("service_account_edges", JVal.list [])]

/-- The document persisted for identity `name`'s first project `pid` under
the empty configuration. -/
def docFor (name pid : String) : Doc :=
  [("service_account_chain", JVal.list []),
   ("current_service_account", JVal.str name),
   ("token_scopes", JVal.null),
   ("projects", JVal.obj [(pid, prP pid)])]

/-- The document persisted for a later (post-`clear`) project `pid` of the
same identity under the empty configuration. -/
def docTail (pid : String) : Doc := [("projects", JVal.obj [(pid, prP pid)])]

/-- The configuration that enables the `iam_policy` resource crawler and
impersonation at the same time. -/
def cfgIamImp : Option Config :=
  some [("iam_policy", [("fetch", JVal.bool true)]),
        ("service_accounts", [("impersonate", JVal.bool true)])]

/-- The configuration that enables impersonation only. -/
def cfgImp : Option Config :=
  some [("service_accounts", [("impersonate", JVal.bool true)])]

/-- The configuration that enables only the `kms` resource crawler. -/
def cfgKms : Option Config := some [("kms", [("fetch", JVal.bool true)])]

/-- The document persisted for project `p1` when impersonation of
`b@x.iam` succeeds. -/
def docEsc : Doc :=
  [("service_account_chain", JVal.list []),
   ("current_service_account", JVal.str "a"),
   ("token_scopes", JVal.null),
   ("projects", JVal.obj [("p1", JVal.obj
     [("project_info", JVal.obj [("projectId", JVal.str "p1")]),
      ("service_account_edges", JVal.list [JVal.str "b@x.iam"])])])]

/-- The document persisted for project `p1` when only the `kms` crawler is
enabled. -/
def docKms : Doc :=
  [("service_account_chain", JVal.list []),
   ("current_service_account", JVal.str "a"),
   ("token_scopes", JVal.null),
   ("projects", JVal.obj [("p1", JVal.obj
     [("project_info", JVal.obj [("projectId", JVal.str "p1")]),
      ("kms", JVal.list []),
      ("service_account_edges", JVal.list [])])])]

/-- The document persisted for the forced project `beta` whose metadata
lookup failed, under the empty configuration. -/
def docBeta : Doc :=
  [("service_account_chain", JVal.list []),
   ("current_service_account", JVal.str "a"),
   ("token_scopes", JVal.null),
   ("projects", JVal.obj [("beta", JVal.obj
     [("project_info", JVal.obj [("projectId", JVal.str "beta"),
                                 ("projectNumber", JVal.str "N/A")]),
      ("service_account_edges", JVal.list [])])])]

/-- Observer: the `project_info` value stored for project `beta` in the
document written by a `processProject` result. -/
def betaProjectInfo (r : Except PyErr (WorldState × Doc × Option (String × Doc))) :
    Option (Option JVal) :=
  match r with
  | .ok (_, _, some (_, doc)) =>
    match aget doc "projects" with
    | some (.obj ps) =>
      match aget ps "beta" with
      | some (.obj pr) => some (aget pr "project_info")
      | _ => none
    | _ => none
  | _ => none

/-!
Helper lemmas about the dictionary model.
-/

theorem aget_aset_self {α : Type} (d : List (String × α)) (k : String) (v : α) :
    aget (aset d k v) k = some v := by
  induction d with
  | nil => simp [aset, aget]
  | cons kv rest ih =>
    obtain ⟨k', v'⟩ := kv
    by_cases h : k' = k
    · simp [aset, aget, h]
    · simp [aset, aget, h, ih]

theorem aget_aset_ne {α : Type} (d : List (String × α)) (k k' : String) (v : α)
    (h : k' ≠ k) : aget (aset d k v) k' = aget d k' := by
  induction d with
  | nil =>
    simp only [aset, aget]
    exact if_neg (fun hh => h hh.symm)
  | cons kv rest ih =>
    obtain ⟨k₀, v₀⟩ := kv
    by_cases h₀ : k₀ = k
    · subst h₀
      simp only [aset, if_pos rfl, aget]
      rw [if_neg (fun hh : k₀ = k' => h hh.symm),
          if_neg (fun hh : k₀ = k' => h hh.symm)]
    · simp only [aset, if_neg h₀, aget]
      by_cases h₁ : k₀ = k'
      · rw [if_pos h₁, if_pos h₁]
      · rw [if_neg h₁, if_neg h₁, ih]

/-!
The claim theorems.
-/

/-- C1: the specification claims that when the reserved output path already
exists, the second persist fails, the existing file stays unchanged and the
project's crawl for this run is skipped.  The code instead logs the
`FileExistsError` and continues: on a run where identities `a` and `b` both
reach project `p1` (the same reserved path), the second identity's project
is fully crawled and its document is appended after the first one, so the
shared file ends the run holding two concatenated JSON documents. -/
theorem c1_second_persist_appends :
    crawl_loop trivEnv [saA, saB] "out" (some []) false none [] "ts" 3 =
      .ok ⟨⟨[], [("out/p1-ts.json", [docFor "a" "p1", docFor "b" "p1"])],
            some [], none⟩, ["a", "b"]⟩ ∧
    (aget (docFor "b" "p1") "projects").isSome = true :=
  ⟨rfl, rfl⟩

/-- C2: the specification claims the escalation step reuses the IAM policy
already fetched during resource crawling and that no configuration aborts
the traversal.  In the code the resource-crawl result is stored only in the
record, never in the local variable `iam_policy`, which is assigned solely
under `is_set(scan_config, 'iam_policy') is False`; so enabling both the
`iam_policy` resource type and impersonation makes the escalation step read
an unassigned local and the whole run aborts with `UnboundLocalError`. -/
theorem c2_escalation_unbound_policy :
    crawl_loop trivEnv [saA] "out" cfgIamImp false none [] "ts" 2 =
      .error (.unboundLocal "iam_policy") := rfl

/-- C3 counterexample: on a run where identity `a` reaches projects `p1`
and `p2`, the document written for `p2` (the second project of the same
identity) lacks `service_account_chain`, `current_service_account` and
`token_scopes` — `sa_results.clear()` after the first save removed them —
refuting the claim that every persisted document carries all four keys. -/
theorem c3_counterexample :
    crawl_loop twoProjEnv [saA] "out" (some []) false none [] "ts" 2 =
      .ok ⟨⟨[], [("out/p1-ts.json", [docFor "a" "p1"]),
                 ("out/p2-ts.json", [docTail "p2"])], some [], none⟩, ["a"]⟩ ∧
    aget (docTail "p2") "service_account_chain" = none ∧
    aget (docTail "p2") "current_service_account" = none ∧
    aget (docTail "p2") "token_scopes" = none :=
  ⟨rfl, rfl, rfl, rfl⟩

/-- C4 counterexample: with a present (non-null) configuration mapping that
lacks the `compute_instances` key, the fetch-enable predicate returns
`False` — fetching is disabled, not "enabled by default" as claimed. -/
theorem c4_counterexample :
    aget ([] : Config) "compute_instances" = none ∧
    is_set (some []) "compute_instances" = JVal.bool false ∧
    truthy (is_set (some []) "compute_instances") = false :=
  ⟨rfl, rfl, rfl⟩

/-- C4 amended: a null configuration enables every resource type and makes
the escalation block a no-op (impersonation is not attempted); but when a
configuration mapping is present, a resource-type key absent from it yields
`False`, i.e. fetching disabled by default. -/
theorem c4_amended :
    (∀ s, is_set none s = JVal.bool true) ∧
    (∀ (c : Config) s, aget c s = none → is_set (some c) s = JVal.bool false) ∧
    (∀ env cred pid chain ipv queue pr,
      escalation_step env cred pid chain none ipv queue pr =
        .ok (ipv, queue, aset pr "service_account_edges" (JVal.list []))) := by
  refine ⟨fun s => rfl, fun c s h => ?_, fun env cred pid chain ipv queue pr => rfl⟩
  simp [is_set, h]

/-- Witness for C4 amended at concrete inputs. -/
theorem c4_witness :
    is_set (some [("kms", [("fetch", JVal.bool true)])]) "subnets" = JVal.bool false ∧
    is_set none "subnets" = JVal.bool true :=
  ⟨c4_amended.2.1 [("kms", [("fetch", JVal.bool true)])] "subnets" rfl,
   c4_amended.1 "subnets"⟩

/-- C5 counterexample: the claim's membership predicate ("a recognized
prefix followed by `:` and containing an `@`") and extraction ("the
component after the first `:`") do not match the code.  The member
`serviceAccount@x.iam` (no `:` at all) is not a service-identity principal
per the claim, yet the code raises `IndexError` on it instead of discarding
it; and for `serviceAccount:a@b:c` the code returns the component between
the first and second `:` (`a@b`), not the component after the first `:`
(`a@b:c`). -/
theorem c5_counterexample :
    get_sas_for_impersonation (some [⟨["serviceAccount@x.iam"]⟩]) =
      .error .indexError ∧
    deriveImpersonationCandidates (some [⟨["serviceAccount@x.iam"]⟩]) = [] ∧
    get_sas_for_impersonation (some [⟨["serviceAccount:a@b:c"]⟩]) = .ok ["a@b"] ∧
    deriveImpersonationCandidates (some [⟨["serviceAccount:a@b:c"]⟩]) = ["a@b:c"] :=
  ⟨rfl, rfl, rfl, rfl⟩

/-- C6 counterexample: a record whose project has no `kms` list at all:
after the light-scan filter, the `kms` key has been *added* to the project
(as an empty list) — and likewise every other schema resource type —
refuting the claim that resource types absent from the record pass through
unchanged with nothing added at those keys. -/
theorem c6_counterexample :
    aget ([] : List (String × JVal)) "kms" = none ∧
    apply_light [("projects", JVal.obj [("p1", JVal.obj [])])] =
      some [("projects", JVal.obj [("p1", JVal.obj
        [("compute_instances", JVal.list []),
         ("compute_images", JVal.list []),
         ("machine_images", JVal.list []),
         ("compute_disks", JVal.list []),
         ("compute_snapshots", JVal.list []),
         ("managed_zones", JVal.list []),
         ("sql_instances", JVal.list []),
         ("cloud_functions", JVal.list []),
         ("kms", JVal.list []),
         ("services", JVal.list [])])])] ∧
    aget [("compute_instances", JVal.list []),
          ("compute_images", JVal.list []),
          ("machine_images", JVal.list []),
          ("compute_disks", JVal.list []),
          ("compute_snapshots", JVal.list []),
          ("managed_zones", JVal.list []),
          ("sql_instances", JVal.list []),
          ("cloud_functions", JVal.list []),
          ("kms", JVal.list []),
          ("services", JVal.list [])] "kms" = some (JVal.list []) :=
  ⟨rfl, rfl, rfl⟩

/-- C7 counterexample: (i) a forced project does not appear in output when
a single-target-project filter that does not match it is given: forcing
`beta` while targeting `alpha` produces no output file at all; (ii) even
without a filter, when the `project_info` resource crawler is enabled (as
in the claimed "null configuration fetches everything" mode) it overwrites
the synthesized `projectNumber = "N/A"` placeholder in the record, so the
placeholder metadata does not survive to the output. -/
theorem c7_counterexample :
    crawl_loop noProjEnv [saA] "out" (some []) false (some "alpha") ["beta"] "ts" 2 =
      .ok ⟨⟨[], [], some [], none⟩, ["a"]⟩ ∧
    forced_projects noProjEnv "ca" ["beta"] =
      [[("projectId", JVal.str "beta"), ("projectNumber", JVal.str "N/A")]] ∧
    betaProjectInfo (processProject nullCrawlEnv "out" "ts" false none saA
        ⟨[], [], none, none⟩ init3
        [("projectId", JVal.str "beta"), ("projectNumber", JVal.str "N/A")]) =
      some (some JVal.null) :=
  ⟨rfl, rfl, rfl⟩

/-!
Characterization of `get_sas_for_impersonation` (escalation discovery).
-/

theorem sas_from_members_ok_mem (ms : List String) :
    ∀ acc out, sas_from_members acc ms = .ok out →
      ∀ a, a ∈ out ↔ a ∈ acc ∨ ∃ m ∈ ms, memberHit m = true ∧
        (splitOnChar m ':').get? 1 = some a := by
  induction ms with
  | nil =>
    intro acc out h a
    simp only [sas_from_members] at h
    injection h with h
    subst h
    simp
  | cons m rest ih =>
    intro acc out h a
    simp only [sas_from_members] at h
    by_cases hm : memberHit m
    · rw [if_pos hm] at h
      cases hsplit : (splitOnChar m ':').get? 1 with
      | none => rw [hsplit] at h; cases h
      | some a₀ =>
        rw [hsplit] at h
        have hiff := ih _ out h a
        have hacc : a ∈ (if a₀ ∈ acc then acc else acc ++ [a₀]) ↔
            a ∈ acc ∨ a = a₀ := by
          by_cases hin : a₀ ∈ acc
          · rw [if_pos hin]
            constructor
            · exact fun hh => Or.inl hh
            · rintro (hh | rfl)
              · exact hh
              · exact hin
          · rw [if_neg hin]
            simp [List.mem_append]
        rw [hiff, hacc]
        constructor
        · rintro ((hh | rfl) | ⟨m', hm', hgood⟩)
          · exact Or.inl hh
          · exact Or.inr ⟨m, List.mem_cons_self m rest, hm, hsplit⟩
          · exact Or.inr ⟨m', List.mem_cons_of_mem m hm', hgood⟩
        · rintro (hh | ⟨m', hm', hhit, hget⟩)
          · exact Or.inl (Or.inl hh)
          · rcases List.mem_cons.mp hm' with rfl | hm'tail
            · rw [hsplit] at hget
              injection hget with hget
              exact Or.inl (Or.inr hget.symm)
            · exact Or.inr ⟨m', hm'tail, hhit, hget⟩
    · rw [if_neg hm] at h
      have hiff := ih _ out h a
      rw [hiff]
      constructor
      · rintro (hh | ⟨m', hm', hgood⟩)
        · exact Or.inl hh
        · exact Or.inr ⟨m', List.mem_cons_of_mem m hm', hgood⟩
      · rintro (hh | ⟨m', hm', hhit, hget⟩)
        · exact Or.inl hh
        · rcases List.mem_cons.mp hm' with rfl | hm'tail
          · exact absurd hhit hm
          · exact Or.inr ⟨m', hm'tail, hhit, hget⟩

theorem sas_from_members_ok_nodup (ms : List String) :
    ∀ acc out, sas_from_members acc ms = .ok out → acc.Nodup → out.Nodup := by
  induction ms with
  | nil =>
    intro acc out h hacc
    simp only [sas_from_members] at h
    injection h with h
    subst h
    exact hacc
  | cons m rest ih =>
    intro acc out h hacc
    simp only [sas_from_members] at h
    by_cases hm : memberHit m
    · rw [if_pos hm] at h
      cases hsplit : (splitOnChar m ':').get? 1 with
      | none => rw [hsplit] at h; cases h
      | some a₀ =>
        rw [hsplit] at h
        refine ih _ out h ?_
        by_cases hin : a₀ ∈ acc
        · rw [if_pos hin]; exact hacc
        · rw [if_neg hin]
          simp [List.nodup_append, hacc, hin]
    · rw [if_neg hm] at h
      exact ih _ out h hacc

theorem sas_from_members_error (ms : List String) :
    ∀ acc e, sas_from_members acc ms = .error e →
      e = PyErr.indexError ∧ ∃ m ∈ ms, memberHit m = true ∧
        (splitOnChar m ':').get? 1 = none := by
  induction ms with
  | nil => intro acc e h; simp only [sas_from_members] at h; cases h
  | cons m rest ih =>
    intro acc e h
    simp only [sas_from_members] at h
    by_cases hm : memberHit m
    · rw [if_pos hm] at h
      cases hsplit : (splitOnChar m ':').get? 1 with
      | none =>
        rw [hsplit] at h
        injection h with h
        subst h
        exact ⟨rfl, m, List.mem_cons_self m rest, hm, hsplit⟩
      | some a₀ =>
        rw [hsplit] at h
        obtain ⟨he, m', hm', hgood⟩ := ih _ e h
        exact ⟨he, m', List.mem_cons_of_mem m hm', hgood⟩
    · rw [if_neg hm] at h
      obtain ⟨he, m', hm', hgood⟩ := ih _ e h
      exact ⟨he, m', List.mem_cons_of_mem m hm', hgood⟩

theorem sas_from_members_error_of_bad (ms : List String) :
    ∀ acc, (∃ m ∈ ms, memberHit m = true ∧ (splitOnChar m ':').get? 1 = none) →
      sas_from_members acc ms = .error PyErr.indexError := by
  induction ms with
  | nil => intro acc h; obtain ⟨m, hm, _⟩ := h; cases hm
  | cons m rest ih =>
    intro acc h
    simp only [sas_from_members]
    by_cases hm : memberHit m
    · rw [if_pos hm]
      cases hsplit : (splitOnChar m ':').get? 1 with
      | none => rfl
      | some a₀ =>
        obtain ⟨m', hm', hhit, hget⟩ := h
        rcases List.mem_cons.mp hm' with rfl | hm'tail
        · rw [hsplit] at hget; cases hget
        · exact ih _ ⟨m', hm'tail, hhit, hget⟩
    · rw [if_neg hm]
      obtain ⟨m', hm', hhit, hget⟩ := h
      rcases List.mem_cons.mp hm' with rfl | hm'tail
      · exact absurd hhit hm
      · exact ih _ ⟨m', hm'tail, hhit, hget⟩

theorem sas_from_policy_ok_mem (pol : List PolicyEntry) :
    ∀ acc out, sas_from_policy acc pol = .ok out →
      ∀ a, a ∈ out ↔ a ∈ acc ∨ ∃ en ∈ pol, ∃ m ∈ en.members,
        memberHit m = true ∧ (splitOnChar m ':').get? 1 = some a := by
  induction pol with
  | nil =>
    intro acc out h a
    simp only [sas_from_policy] at h
    injection h with h
    subst h
    simp
  | cons en rest ih =>
    intro acc out h a
    simp only [sas_from_policy] at h
    cases hen : sas_from_members acc en.members with
    | error e => rw [hen] at h; cases h
    | ok acc₁ =>
      rw [hen] at h
      have h₁ := sas_from_members_ok_mem en.members acc acc₁ hen a
      have h₂ := ih acc₁ out h a
      rw [h₂, h₁]
      constructor
      · rintro ((hh | ⟨m, hm, hgood⟩) | ⟨en', hen', hgood⟩)
        · exact Or.inl hh
        · exact Or.inr ⟨en, List.mem_cons_self en rest, m, hm, hgood⟩
        · exact Or.inr ⟨en', List.mem_cons_of_mem en hen', hgood⟩
      · rintro (hh | ⟨en', hen', hgood⟩)
        · exact Or.inl (Or.inl hh)
        · rcases List.mem_cons.mp hen' with rfl | hen'tail
          · exact Or.inl (Or.inr hgood)
          · exact Or.inr ⟨en', hen'tail, hgood⟩

theorem sas_from_policy_ok_nodup (pol : List PolicyEntry) :
    ∀ acc out, sas_from_policy acc pol = .ok out → acc.Nodup → out.Nodup := by
  induction pol with
  | nil =>
    intro acc out h hacc
    simp only [sas_from_policy] at h
    injection h with h
    subst h
    exact hacc
  | cons en rest ih =>
    intro acc out h hacc
    simp only [sas_from_policy] at h
    cases hen : sas_from_members acc en.members with
    | error e => rw [hen] at h; cases h
    | ok acc₁ =>
      rw [hen] at h
      exact ih acc₁ out h (sas_from_members_ok_nodup en.members acc acc₁ hen hacc)

theorem sas_from_policy_error (pol : List PolicyEntry) :
    ∀ acc e, sas_from_policy acc pol = .error e →
      e = PyErr.indexError ∧ ∃ en ∈ pol, ∃ m ∈ en.members,
        memberHit m = true ∧ (splitOnChar m ':').get? 1 = none := by
  induction pol with
  | nil => intro acc e h; simp only [sas_from_policy] at h; cases h
  | cons en rest ih =>
    intro acc e h
    simp only [sas_from_policy] at h
    cases hen : sas_from_members acc en.members with
    | error e' =>
      rw [hen] at h
      injection h with h
      subst h
      obtain ⟨he, m, hm, hgood⟩ := sas_from_members_error en.members acc e' hen
      exact ⟨he, en, List.mem_cons_self en rest, m, hm, hgood⟩
    | ok acc₁ =>
      rw [hen] at h
      obtain ⟨he, en', hen', hgood⟩ := ih acc₁ e h
      exact ⟨he, en', List.mem_cons_of_mem en hen', hgood⟩

theorem sas_from_policy_error_of_bad (pol : List PolicyEntry) :
    ∀ acc, (∃ en ∈ pol, ∃ m ∈ en.members,
        memberHit m = true ∧ (splitOnChar m ':').get? 1 = none) →
      sas_from_policy acc pol = .error PyErr.indexError := by
  induction pol with
  | nil => intro acc h; obtain ⟨en, hen, _⟩ := h; cases hen
  | cons en rest ih =>
    intro acc h
    simp only [sas_from_policy]
    obtain ⟨en', hen', m, hm, hhit, hget⟩ := h
    rcases List.mem_cons.mp hen' with rfl | hen'tail
    · rw [sas_from_members_error_of_bad en'.members acc ⟨m, hm, hhit, hget⟩]
    · cases hen : sas_from_members acc en.members with
      | error e =>
        obtain ⟨he, _⟩ := sas_from_members_error en.members acc e hen
        subst he
        rfl
      | ok acc₁ => exact ih acc₁ ⟨en', hen'tail, m, hm, hhit, hget⟩

/-- C5 amended: `get_sas_for_impersonation` is pure and returns, for a
present policy, the list of addresses — each exactly once (case-sensitive
exact dedup, so the result has no duplicates), in first-occurrence order —
extracted from exactly the binding members that start with
`serviceAccount` and contain `@`; the extracted address is the component
between the first and second `:` (`split(':')[1]`), not everything after
the first `:`; an absent or empty policy yields the empty list; and it
fails with `IndexError` exactly when some member starts with
`serviceAccount`, contains `@`, but has no `:`. -/
theorem c5_amended :
    (get_sas_for_impersonation none = .ok []) ∧
    (get_sas_for_impersonation (some []) = .ok []) ∧
    (∀ pol out, get_sas_for_impersonation (some pol) = .ok out →
      out.Nodup ∧
      ∀ a, a ∈ out ↔ ∃ en ∈ pol, ∃ m ∈ en.members,
        memberHit m = true ∧ (splitOnChar m ':').get? 1 = some a) ∧
    (∀ pol e, get_sas_for_impersonation (some pol) = .error e →
      e = PyErr.indexError ∧ ∃ en ∈ pol, ∃ m ∈ en.members,
        memberHit m = true ∧ (splitOnChar m ':').get? 1 = none) ∧
    (∀ pol, (∃ en ∈ pol, ∃ m ∈ en.members,
        memberHit m = true ∧ (splitOnChar m ':').get? 1 = none) →
      get_sas_for_impersonation (some pol) = .error PyErr.indexError) := by
  refine ⟨rfl, rfl, ?_, ?_, ?_⟩
  · intro pol out h
    simp only [get_sas_for_impersonation] at h
    by_cases hp : pol.isEmpty
    · rw [if_pos hp] at h
      injection h with h
      subst h
      rw [List.isEmpty_iff] at hp
      subst hp
      refine ⟨List.nodup_nil, fun a => ?_⟩
      simp
    · rw [if_neg hp] at h
      refine ⟨sas_from_policy_ok_nodup pol [] out h List.nodup_nil, fun a => ?_⟩
      have := sas_from_policy_ok_mem pol [] out h a
      simpa using this
  · intro pol e h
    simp only [get_sas_for_impersonation] at h
    by_cases hp : pol.isEmpty
    · rw [if_pos hp] at h; cases h
    · rw [if_neg hp] at h
      exact sas_from_policy_error pol [] e h
  · intro pol h
    simp only [get_sas_for_impersonation]
    have hp : ¬pol.isEmpty := by
      obtain ⟨en, hen, _⟩ := h
      cases pol with
      | nil => cases hen
      | cons x xs => simp
    rw [if_neg hp]
    exact sas_from_policy_error_of_bad pol [] h

/-- Witness for C5 amended: two bindings both granting
`serviceAccount:c@x.iam` yield the address exactly once. -/
theorem c5_witness :
    get_sas_for_impersonation
      (some [⟨["serviceAccount:c@x.iam"]⟩, ⟨["serviceAccount:c@x.iam"]⟩]) =
        .ok ["c@x.iam"] ∧
    (["c@x.iam"] : List String).Nodup :=
  ⟨rfl, (c5_amended.2.2.1
    [⟨["serviceAccount:c@x.iam"]⟩, ⟨["serviceAccount:c@x.iam"]⟩]
    ["c@x.iam"] rfl).1⟩

/-!
Characterization of the light-schema filter of `save_results`.
-/

theorem light_project_step_char (rt : String) (schema : List String)
    (pd pd' : JVal) (h : light_project_step rt schema pd = some pd') :
    ∃ kvs ls, pd = JVal.obj kvs ∧
      light_resource schema (agetD kvs rt (JVal.obj [])) = some ls ∧
      pd' = JVal.obj (aset kvs rt (JVal.list ls)) := by
  cases pd with
  | obj kvs =>
    simp only [light_project_step] at h
    cases hres : light_resource schema (agetD kvs rt (JVal.obj [])) with
    | none => rw [hres] at h; cases h
    | some ls =>
      rw [hres] at h
      injection h with h
      exact ⟨kvs, ls, rfl, hres, h.symm⟩
  | null => simp only [light_project_step] at h; cases h
  | bool b => simp only [light_project_step] at h; cases h
  | int n => simp only [light_project_step] at h; cases h
  | str s => simp only [light_project_step] at h; cases h
  | list xs => simp only [light_project_step] at h; cases h

theorem light_projects_char (rt : String) (schema : List String) :
    ∀ ps ps', light_projects rt schema ps = some ps' →
      (∀ pn, aget ps pn = none → aget ps' pn = none) ∧
      (∀ pn pd, aget ps pn = some pd →
        ∃ pd', aget ps' pn = some pd' ∧
          light_project_step rt schema pd = some pd') := by
  intro ps
  induction ps with
  | nil =>
    intro ps' h
    simp only [light_projects] at h
    injection h with h
    subst h
    exact ⟨fun pn _ => rfl, fun pn pd h => by cases h⟩
  | cons p rest ih =>
    intro ps' h
    obtain ⟨pn₀, pd₀⟩ := p
    simp only [light_projects] at h
    cases hstep : light_project_step rt schema pd₀ with
    | none => rw [hstep] at h; cases h
    | some pd₀' =>
      rw [hstep] at h
      cases hrest : light_projects rt schema rest with
      | none => rw [hrest] at h; cases h
      | some rest' =>
        rw [hrest] at h
        injection h with h
        subst h
        obtain ⟨ihnone, ihsome⟩ := ih rest' hrest
        constructor
        · intro pn hnone
          simp only [aget] at hnone ⊢
          by_cases hpn : pn₀ = pn
          · rw [if_pos hpn] at hnone; cases hnone
          · rw [if_neg hpn] at hnone ⊢
            exact ihnone pn hnone
        · intro pn pd hsome
          simp only [aget] at hsome ⊢
          by_cases hpn : pn₀ = pn
          · rw [if_pos hpn] at hsome
            injection hsome with hsome
            subst hsome
            exact ⟨pd₀', by rw [if_pos hpn], hstep⟩
          · rw [if_neg hpn] at hsome ⊢
            exact ihsome pn pd hsome

theorem light_step_char (rt : String) (schema : List String) (res res' : Doc)
    (h : light_step rt schema res = some res') :
    ∃ ps ps', agetD res "projects" (JVal.obj []) = JVal.obj ps ∧
      light_projects rt schema ps = some ps' ∧
      res' = aset res "projects" (JVal.obj ps') := by
  simp only [light_step] at h
  split at h
  next ps heq =>
    split at h
    next ps' hlp =>
      injection h with h
      exact ⟨ps, ps', heq, hlp, h.symm⟩
    next => cases h
  next => cases h

theorem light_fold_char (L : List (String × List String)) :
    ∀ res res', (L.map Prod.fst).Nodup → light_fold L res = some res' →
      (∀ k, k ≠ "projects" → aget res' k = aget res k) ∧
      (∀ ps, aget res "projects" = some (JVal.obj ps) →
        ∃ ps', aget res' "projects" = some (JVal.obj ps') ∧
          (∀ pn, aget ps pn = none → aget ps' pn = none) ∧
          (∀ pn pd, aget ps pn = some pd →
            ∃ pd', aget ps' pn = some pd' ∧ lightValRel L pd pd')) := by
  induction L with
  | nil =>
    intro res res' _ h
    simp only [light_fold] at h
    injection h with h
    subst h
    refine ⟨fun k _ => rfl, fun ps hps => ⟨ps, hps, fun pn h => h, ?_⟩⟩
    intro pn pd hpd
    refine ⟨pd, hpd, ?_, fun hne => absurd rfl hne⟩
    intro kvs hkvs
    exact ⟨kvs, hkvs, fun k _ => rfl, fun rt schema hmem => by cases hmem⟩
  | cons x L' ih =>
    intro res res' hnd h
    obtain ⟨rt₀, sch₀⟩ := x
    simp only [List.map_cons, List.nodup_cons] at hnd
    obtain ⟨hnotin, hnd'⟩ := hnd
    simp only [light_fold] at h
    cases hstep : light_step rt₀ sch₀ res with
    | none => rw [hstep] at h; cases h
    | some res₁ =>
      rw [hstep] at h
      obtain ⟨ihtop, ihproj⟩ := ih res₁ res' hnd' h
      obtain ⟨ps₀, ps₁, hag, hlp, hres₁⟩ :=
        light_step_char rt₀ sch₀ res res₁ hstep
      constructor
      · intro k hk
        rw [ihtop k hk, hres₁, aget_aset_ne res "projects" k (JVal.obj ps₁) hk]
      · intro ps hps
        have hps₀ : ps₀ = ps := by
          rw [agetD, hps] at hag
          simp only [Option.getD] at hag
          injection hag with hag
          exact hag.symm
        subst hps₀
        have hres₁proj : aget res₁ "projects" = some (JVal.obj ps₁) := by
          rw [hres₁]
          exact aget_aset_self res "projects" (JVal.obj ps₁)
        obtain ⟨ps₂, hps₂, hnone₂, hsome₂⟩ := ihproj ps₁ hres₁proj
        obtain ⟨hnone₁, hsome₁⟩ := light_projects_char rt₀ sch₀ ps₀ ps₁ hlp
        refine ⟨ps₂, hps₂, ?_, ?_⟩
        · intro pn hn
          exact hnone₂ pn (hnone₁ pn hn)
        · intro pn pd hpd
          obtain ⟨pd₁, hpd₁, hstep₁⟩ := hsome₁ pn pd hpd
          obtain ⟨pd₂, hpd₂, hrel'⟩ := hsome₂ pn pd₁ hpd₁
          obtain ⟨kvs₀, ls₀, hkvs₀, hlr₀, hpd₁eq⟩ :=
            light_project_step_char rt₀ sch₀ pd pd₁ hstep₁
          refine ⟨pd₂, hpd₂, ?_, fun _ => ⟨kvs₀, hkvs₀⟩⟩
          intro kvs hkvs
          have hkvseq : kvs₀ = kvs := by
            rw [hkvs] at hkvs₀
            injection hkvs₀ with hh
            exact hh.symm
          subst hkvseq
          obtain ⟨kvs₂, hkvs₂, hkr'⟩ := hrel'.1 (aset kvs₀ rt₀ (JVal.list ls₀)) hpd₁eq
          refine ⟨kvs₂, hkvs₂, ?_, ?_⟩
          · intro k hk
            simp only [List.map_cons, List.mem_cons, not_or] at hk
            obtain ⟨hk₀, hk'⟩ := hk
            rw [hkr'.1 k hk',
                aget_aset_ne kvs₀ rt₀ k (JVal.list ls₀) hk₀]
          · intro rt schema hmem
            rcases List.mem_cons.mp hmem with heq | hmem'
            · rw [Prod.mk.injEq] at heq
              obtain ⟨hrt, hsch⟩ := heq
              refine ⟨ls₀, ?_, ?_⟩
              · rw [hrt, hkr'.1 rt₀ hnotin,
                    aget_aset_self kvs₀ rt₀ (JVal.list ls₀)]
              · rw [hrt, hsch]
                exact hlr₀
            · obtain ⟨ls, hls, hlr⟩ := hkr'.2 rt schema hmem'
              have hrtne : rt ≠ rt₀ := by
                intro hh
                subst hh
                exact hnotin (List.mem_map.mpr ⟨(rt, schema), hmem', rfl⟩)
              refine ⟨ls, hls, ?_⟩
              rw [← hlr]
              congr 1
              rw [agetD, agetD,
                  aget_aset_ne kvs₀ rt₀ rt (JVal.list ls₀) hrtne]

theorem light_list_forall2 (schema : List String) :
    ∀ es ls, light_list schema es = some ls →
      List.Forall₂ (fun e e' => light_entry schema e = some e') es ls := by
  intro es
  induction es with
  | nil =>
    intro ls h
    simp only [light_list] at h
    injection h with h
    subst h
    exact List.Forall₂.nil
  | cons e rest ih =>
    intro ls h
    simp only [light_list] at h
    cases he : light_entry schema e with
    | none => rw [he] at h; cases h
    | some e' =>
      rw [he] at h
      cases hrest : light_list schema rest with
      | none => rw [hrest] at h; cases h
      | some rest' =>
        rw [hrest] at h
        injection h with h
        subst h
        exact List.Forall₂.cons he (ih rest' hrest)

/-- C6 amended: with reduced fidelity requested, for every record the light
filter succeeds on: top-level keys other than `projects` keep their values;
project names are preserved; and per project, keys not named in the reduced
schema keep their exact values while *every* resource type named in the
schema ends up present, mapped to the filtered version of its original
list — each entry replaced by a copy with exactly the schema's fields
(missing fields becoming an explicit null) — where a resource type absent
from the project is *added* as an empty list rather than passing through
absent. -/
theorem c6_amended :
    (∀ res res', apply_light res = some res' →
      (∀ k, k ≠ "projects" → aget res' k = aget res k) ∧
      (∀ ps, aget res "projects" = some (JVal.obj ps) →
        ∃ ps', aget res' "projects" = some (JVal.obj ps') ∧
          (∀ pn, aget ps pn = none → aget ps' pn = none) ∧
          (∀ pn pd, aget ps pn = some pd →
            ∃ pd', aget ps' pn = some pd' ∧
              lightValRel light_version_scan_schema pd pd'))) ∧
    (∀ schema kvs, light_entry schema (JVal.obj kvs) =
      some (JVal.obj (schema.map (fun k => (k, agetD kvs k JVal.null))))) ∧
    (∀ schema es ls, light_resource schema (JVal.list es) = some ls →
      List.Forall₂ (fun e e' => light_entry schema e = some e') es ls) ∧
    (∀ schema, light_resource schema (JVal.obj []) = some []) := by
  refine ⟨?_, fun schema kvs => rfl, ?_, fun schema => rfl⟩
  · intro res res' h
    exact light_fold_char light_version_scan_schema res res' (by decide) h
  · intro schema es ls h
    exact light_list_forall2 schema es ls h

/-- Witness for C6 amended at a concrete record. -/
theorem c6_witness :
    apply_light [("x", JVal.null), ("projects", JVal.obj [])] =
      some [("x", JVal.null), ("projects", JVal.obj [])] ∧
    aget [("x", JVal.null), ("projects", JVal.obj [])] "x" = some JVal.null := by
  refine ⟨rfl, ?_⟩
  have h := (c6_amended.1 [("x", JVal.null), ("projects", JVal.obj [])]
    [("x", JVal.null), ("projects", JVal.obj [])] rfl).1 "x" (by decide)
  exact h.trans rfl

/-!
The visited-set invariant of the main loop.
-/

theorem crawl_loop_go_processed (env : Env) (od ts : String) (light : Bool)
    (tp : Option String) (fp : List String) :
    ∀ fuel st st', crawl_loop_go env od ts light tp fp fuel st = .ok st' →
      st.processed_sas <+: st'.processed_sas ∧
      (st.processed_sas.Nodup → st'.processed_sas.Nodup) := by
  intro fuel
  induction fuel with
  | zero =>
    intro st st' h
    injection h with h
    subst h
    exact ⟨List.prefix_refl _, id⟩
  | succ n ih =>
    intro st st' h
    obtain ⟨⟨queue, files, sc, ipv⟩, processed⟩ := st
    cases queue with
    | nil =>
      simp only [crawl_loop_go] at h
      injection h with h
      subst h
      exact ⟨List.prefix_refl _, id⟩
    | cons sa rest =>
      simp only [crawl_loop_go] at h
      by_cases hmem : sa.sa_name ∈ processed
      · rw [if_pos hmem] at h
        exact ih ⟨⟨rest, files, sc, ipv⟩, processed⟩ st' h
      · rw [if_neg hmem] at h
        cases hpi : processIdentity env od ts light tp fp sa
            ⟨rest, files, sc, ipv⟩ with
        | error e => rw [hpi] at h; cases h
        | ok p =>
          obtain ⟨w', docs⟩ := p
          rw [hpi] at h
          have hrec := ih ⟨w', processed ++ [sa.sa_name]⟩ st' h
          constructor
          · exact (List.prefix_append processed [sa.sa_name]).trans hrec.1
          · intro hnd
            refine hrec.2 ?_
            simp [List.nodup_append, hnd, hmem]

theorem crawl_loop_go_drop (env : Env) (od ts : String) (light : Bool)
    (tp : Option String) (fp : List String) (fuel : Nat) (files : Files)
    (sc : Option Config) (ipv : Option (Option (List PolicyEntry)))
    (processed : List String) (sa : SaTuple) (rest : List SaTuple)
    (hmem : sa.sa_name ∈ processed) :
    crawl_loop_go env od ts light tp fp (fuel + 1)
        ⟨⟨sa :: rest, files, sc, ipv⟩, processed⟩ =
      crawl_loop_go env od ts light tp fp fuel
        ⟨⟨rest, files, sc, ipv⟩, processed⟩ := by
  simp only [crawl_loop_go]
  rw [if_pos hmem]

/-- C8: per run, each distinct identity label is dequeued and fully
processed at most once: the visited set only ever grows by appending (it is
a prefix of its later values, never shrinking), it stays duplicate-free —
so starting from the empty set of a fresh run, no label is processed twice
— and dequeuing an identity whose label is already visited merely drops it
from the queue, leaving the visited set, filesystem, configuration and
policy variable untouched, without reprocessing. -/
theorem c8_dedup_invariant :
    (∀ env od ts light tp fp fuel st st',
      crawl_loop_go env od ts light tp fp fuel st = .ok st' →
        st.processed_sas <+: st'.processed_sas ∧
        (st.processed_sas.Nodup → st'.processed_sas.Nodup)) ∧
    (∀ env init od sc light tp fp ts fuel st',
      crawl_loop env init od sc light tp fp ts fuel = .ok st' →
        st'.processed_sas.Nodup) ∧
    (∀ env od ts light tp fp fuel files sc ipv processed sa rest,
      sa.sa_name ∈ processed →
      crawl_loop_go env od ts light tp fp (fuel + 1)
          ⟨⟨sa :: rest, files, sc, ipv⟩, processed⟩ =
        crawl_loop_go env od ts light tp fp fuel
          ⟨⟨rest, files, sc, ipv⟩, processed⟩) := by
  refine ⟨fun env od ts light tp fp fuel st st' h =>
      crawl_loop_go_processed env od ts light tp fp fuel st st' h,
    fun env init od sc light tp fp ts fuel st' h =>
      (crawl_loop_go_processed env od ts light tp fp fuel _ st' h).2
        List.nodup_nil,
    fun env od ts light tp fp fuel files sc ipv processed sa rest hmem =>
      crawl_loop_go_drop env od ts light tp fp fuel files sc ipv processed
        sa rest hmem⟩

/-!
Characterization of one project-loop iteration.
-/

theorem aset_aset {α : Type} (d : List (String × α)) (k : String) (v v' : α) :
    aset (aset d k v) k v' = aset d k v' := by
  induction d with
  | nil => simp [aset]
  | cons kv rest ih =>
    obtain ⟨k₀, v₀⟩ := kv
    by_cases h : k₀ = k
    · simp [aset, h]
    · simp [aset, h, ih]

theorem try_impersonation_char (env : Env) (credentials : Cred)
    (updated_chain : List String) :
    ∀ sas : List String,
      (∀ t ∈ (try_impersonation env credentials updated_chain sas).1,
        t.chain_so_far = updated_chain ∧
        env.impersonate_sa credentials t.sa_name = some t.credentials ∧
        t.sa_name ∈ (try_impersonation env credentials updated_chain sas).2) ∧
      (∀ c ∈ sas, ∀ nc, env.impersonate_sa credentials c = some nc →
        (⟨c, nc, updated_chain⟩ : SaTuple) ∈
          (try_impersonation env credentials updated_chain sas).1 ∧
        c ∈ (try_impersonation env credentials updated_chain sas).2) := by
  intro sas
  induction sas with
  | nil =>
    constructor
    · intro t ht
      simp only [try_impersonation] at ht
      cases ht
    · intro c hc nc hnc
      cases hc
  | cons candidate rest ih =>
    obtain ⟨ih₁, ih₂⟩ := ih
    constructor
    · intro t ht
      cases himp : env.impersonate_sa credentials candidate with
      | none =>
        simp only [try_impersonation, himp] at ht ⊢
        exact ih₁ t ht
      | some nc =>
        simp only [try_impersonation, himp] at ht ⊢
        rcases List.mem_cons.mp ht with rfl | ht'
        · exact ⟨rfl, himp, List.mem_cons_self _ _⟩
        · exact ⟨(ih₁ t ht').1, (ih₁ t ht').2.1,
                 List.mem_cons_of_mem _ (ih₁ t ht').2.2⟩
    · intro c hc nc hnc
      rcases List.mem_cons.mp hc with rfl | hc'
      · simp only [try_impersonation, hnc]
        exact ⟨List.mem_cons_self _ _, List.mem_cons_self _ _⟩
      · cases himp : env.impersonate_sa credentials candidate with
        | none =>
          simp only [try_impersonation, himp]
          exact ih₂ c hc' nc hnc
        | some nc₀ =>
          simp only [try_impersonation, himp]
          exact ⟨List.mem_cons_of_mem _ (ih₂ c hc' nc hnc).1,
                 List.mem_cons_of_mem _ (ih₂ c hc' nc hnc).2⟩

theorem escalation_step_char (env : Env) (credentials : Cred)
    (project_id : String) (updated_chain : List String) (sc : Option Config)
    (ipv : Option (Option (List PolicyEntry))) (queue : List SaTuple)
    (pr : Doc) (ipv' : Option (Option (List PolicyEntry)))
    (queue' : List SaTuple) (pr₅ : Doc)
    (h : escalation_step env credentials project_id updated_chain sc ipv
      queue pr = .ok (ipv', queue', pr₅)) :
    ∃ (new : List SaTuple) (edges : List String),
      queue' = queue ++ new ∧
      pr₅ = aset pr "service_account_edges" (JVal.list (edges.map JVal.str)) ∧
      (∀ t ∈ new, t.chain_so_far = updated_chain ∧
        env.impersonate_sa credentials t.sa_name = some t.credentials ∧
        t.sa_name ∈ edges) := by
  cases himpers : impers_of sc with
  | none =>
    simp only [escalation_step, himpers] at h
    injection h with h
    rw [Prod.mk.injEq, Prod.mk.injEq] at h
    obtain ⟨h₁, h₂, h₃⟩ := h
    exact ⟨[], [], by rw [← h₂, List.append_nil], by rw [← h₃, List.map_nil],
           fun t ht => absurd ht (List.not_mem_nil t)⟩
  | some o =>
    simp only [escalation_step, himpers] at h
    by_cases himp : isTrueVal (agetD o "impersonate" (JVal.bool false))
    · rw [if_pos himp] at h
      cases hfetch : iam_policy_fetch env credentials project_id sc ipv with
      | none => simp only [hfetch] at h; cases h
      | some iam_policy =>
        simp only [hfetch] at h
        cases hsas : get_sas_for_impersonation iam_policy with
        | error e => simp only [hsas] at h; cases h
        | ok sas =>
          simp only [hsas] at h
          injection h with h
          rw [Prod.mk.injEq, Prod.mk.injEq] at h
          obtain ⟨h₁, h₂, h₃⟩ := h
          refine ⟨(try_impersonation env credentials updated_chain sas).1,
                  (try_impersonation env credentials updated_chain sas).2,
                  h₂.symm, ?_, ?_⟩
          · rw [← h₃, aset_aset]
          · exact fun t ht => (try_impersonation_char env credentials
              updated_chain sas).1 t ht
    · rw [if_neg himp] at h
      injection h with h
      rw [Prod.mk.injEq, Prod.mk.injEq] at h
      obtain ⟨h₁, h₂, h₃⟩ := h
      exact ⟨[], [], by rw [← h₂, List.append_nil], by rw [← h₃, List.map_nil],
             fun t ht => absurd ht (List.not_mem_nil t)⟩

theorem processProject_ok (env : Env) (od suffix : String) (light : Bool)
    (tp : Option String) (sa : SaTuple) (w : WorldState) (res : Doc)
    (project : Project) (w' : WorldState) (res' : Doc)
    (written : Option (String × Doc))
    (h : processProject env od suffix light tp sa w res project =
      .ok (w', res', written)) :
    ∃ project_id, aget project "projectId" = some (JVal.str project_id) ∧
      ((target_skip tp project_id = true ∧ w' = w ∧ res' = res ∧
        written = none) ∨
       (target_skip tp project_id = false ∧
        ∃ sc' pr₂ ipv' queue' pr₅ files₂ doc,
          crawl_resources env sa.credentials project_id
              (gcs_file_path od project_id suffix) crawl_client_map
              w.scan_config
              (aset (projectResult₀ res project_id) "project_info"
                (JVal.obj project)) = .ok (sc', pr₂) ∧
          escalation_step env sa.credentials project_id
              (sa.chain_so_far ++ [sa.sa_name]) sc' w.iam_policy_var w.queue
              (gke_step env sc' project_id sa.credentials pr₂) =
            .ok (ipv', queue', pr₅) ∧
          save_results (open_x w.files (output_file_path od project_id suffix))
              (aset res "projects"
                (JVal.obj (aset (projectsOf res) project_id (JVal.obj pr₅))))
              (output_file_path od project_id suffix) light =
            some (files₂, doc) ∧
          w' = ⟨queue', files₂, sc', ipv'⟩ ∧ res' = [] ∧
          written = some (output_file_path od project_id suffix, doc))) := by
  cases hpid : aget project "projectId" with
  | none => simp only [processProject, hpid] at h; cases h
  | some v =>
    cases v with
    | null => simp only [processProject, hpid] at h; cases h
    | bool b => simp only [processProject, hpid] at h; cases h
    | int n => simp only [processProject, hpid] at h; cases h
    | list xs => simp only [processProject, hpid] at h; cases h
    | obj kvs => simp only [processProject, hpid] at h; cases h
    | str project_id =>
      by_cases hskip : target_skip tp project_id = true
      · simp only [processProject, hpid, if_pos hskip] at h
        injection h with h
        rw [Prod.mk.injEq, Prod.mk.injEq] at h
        obtain ⟨h₁, h₂, h₃⟩ := h
        exact ⟨project_id, rfl, Or.inl ⟨hskip, h₁.symm, h₂.symm, h₃.symm⟩⟩
      · cases hcr : crawl_resources env sa.credentials project_id
            (gcs_file_path od project_id suffix) crawl_client_map
            w.scan_config
            (aset (projectResult₀ res project_id) "project_info"
              (JVal.obj project)) with
        | error e =>
            simp only [processProject, hpid, if_neg hskip, hcr] at h
            cases h
        | ok p =>
          obtain ⟨sc', pr₂⟩ := p
          cases hesc : escalation_step env sa.credentials project_id
              (sa.chain_so_far ++ [sa.sa_name]) sc' w.iam_policy_var w.queue
              (gke_step env sc' project_id sa.credentials pr₂) with
          | error e =>
            simp only [processProject, hpid, if_neg hskip, hcr, hesc] at h
            cases h
          | ok q =>
            obtain ⟨ipv', queue', pr₅⟩ := q
            cases hsave : save_results
                (open_x w.files (output_file_path od project_id suffix))
                (aset res "projects"
                  (JVal.obj (aset (projectsOf res) project_id (JVal.obj pr₅))))
                (output_file_path od project_id suffix) light with
            | none =>
              simp only [processProject, hpid, if_neg hskip, hcr, hesc,
                hsave] at h
              cases h
            | some fd =>
              obtain ⟨files₂, doc⟩ := fd
              simp only [processProject, hpid, if_neg hskip, hcr, hesc,
                hsave] at h
              injection h with h
              rw [Prod.mk.injEq, Prod.mk.injEq] at h
              obtain ⟨h₁, h₂, h₃⟩ := h
              exact ⟨project_id, rfl, Or.inr ⟨Bool.eq_false_iff.mpr hskip,
                sc', pr₂, ipv', queue', pr₅, files₂, doc,
                hcr, hesc, hsave, h₁.symm, h₂.symm, h₃.symm⟩⟩

theorem save_results_doc (fs : Files) (res_data : Doc) (path : String)
    (light : Bool) (fs' : Files) (doc : Doc)
    (h : save_results fs res_data path light = some (fs', doc)) :
    fs' = file_append fs path doc ∧
    (∀ k, k ≠ "projects" → aget doc k = aget res_data k) ∧
    (∀ ps, aget res_data "projects" = some (JVal.obj ps) →
      ∃ ps', aget doc "projects" = some (JVal.obj ps') ∧
        (∀ pn pd, aget ps pn = some pd → ∃ pd', aget ps' pn = some pd' ∧
          (pd' = pd ∨ lightValRel light_version_scan_schema pd pd'))) := by
  cases light with
  | false =>
    simp only [save_results] at h
    injection h with h
    rw [Prod.mk.injEq] at h
    obtain ⟨h₁, h₂⟩ := h
    subst h₂
    refine ⟨h₁.symm, fun k _ => rfl, fun ps hps => ⟨ps, hps, ?_⟩⟩
    exact fun pn pd hpd => ⟨pd, hpd, Or.inl rfl⟩
  | true =>
    simp only [save_results] at h
    cases hal : apply_light res_data with
    | none => rw [hal] at h; cases h
    | some d =>
      rw [hal] at h
      injection h with h
      rw [Prod.mk.injEq] at h
      obtain ⟨h₁, h₂⟩ := h
      subst h₂
      have hchar := light_fold_char light_version_scan_schema res_data d
        (by decide) hal
      refine ⟨h₁.symm, hchar.1, fun ps hps => ?_⟩
      obtain ⟨ps', hps', _, hsome⟩ := hchar.2 ps hps
      refine ⟨ps', hps', fun pn pd hpd => ?_⟩
      obtain ⟨pd', hpd', hrel⟩ := hsome pn pd hpd
      exact ⟨pd', hpd', Or.inr hrel⟩

/-- C9: for every candidate whose impersonation succeeds while identity
`I = sa` processes a project, a new identity is enqueued whose
`escalation_chain` equals `I`'s chain with `I`'s own label appended (so its
length grows by exactly one), and the candidate's label is recorded under
`service_account_edges` of that project in the persisted document; nothing
else is ever added to the queue by a project iteration. -/
theorem c9_chain_monotonicity :
    (∀ (env : Env) credentials updated_chain (sas : List String) c nc,
      c ∈ sas → env.impersonate_sa credentials c = some nc →
      (⟨c, nc, updated_chain⟩ : SaTuple) ∈
        (try_impersonation env credentials updated_chain sas).1 ∧
      c ∈ (try_impersonation env credentials updated_chain sas).2) ∧
    (∀ env od suffix light tp sa w res project w' res' written,
      processProject env od suffix light tp sa w res project =
        .ok (w', res', written) →
      ∃ new, w'.queue = w.queue ++ new ∧
        ∀ t ∈ new,
          t.chain_so_far = sa.chain_so_far ++ [sa.sa_name] ∧
          t.chain_so_far.length = sa.chain_so_far.length + 1 ∧
          env.impersonate_sa sa.credentials t.sa_name = some t.credentials ∧
          ∃ path doc ps pid pr edges,
            written = some (path, doc) ∧
            aget doc "projects" = some (JVal.obj ps) ∧
            aget ps pid = some (JVal.obj pr) ∧
            aget pr "service_account_edges" = some (JVal.list edges) ∧
            JVal.str t.sa_name ∈ edges) := by
  constructor
  · intro env credentials updated_chain sas c nc hc hnc
    exact (try_impersonation_char env credentials updated_chain sas).2
      c hc nc hnc
  · intro env od suffix light tp sa w res project w' res' written h
    obtain ⟨pid, hpid, hcase⟩ := processProject_ok env od suffix light tp sa
      w res project w' res' written h
    rcases hcase with ⟨_, hw, _, _⟩ | ⟨_, sc', pr₂, ipv', queue', pr₅,
      files₂, doc, hcr, hesc, hsave, hw, hres, hwr⟩
    · exact ⟨[], by rw [hw, List.append_nil],
        fun t ht => absurd ht (List.not_mem_nil t)⟩
    · obtain ⟨new, edges, hq, hpr₅, hnew⟩ := escalation_step_char env
        sa.credentials pid (sa.chain_so_far ++ [sa.sa_name]) sc'
        w.iam_policy_var w.queue (gke_step env sc' pid sa.credentials pr₂)
        ipv' queue' pr₅ hesc
      refine ⟨new, by rw [hw, hq], fun t ht => ?_⟩
      obtain ⟨hchain, himp, hedge⟩ := hnew t ht
      refine ⟨hchain, by rw [hchain, List.length_append, List.length_singleton],
        himp, ?_⟩
      obtain ⟨hfs, htop, hproj⟩ := save_results_doc _ _ _ _ _ _ hsave
      have hdps : aget (aset res "projects"
          (JVal.obj (aset (projectsOf res) pid (JVal.obj pr₅)))) "projects" =
          some (JVal.obj (aset (projectsOf res) pid (JVal.obj pr₅))) :=
        aget_aset_self res "projects" _
      obtain ⟨ps', hps', hsome⟩ := hproj _ hdps
      obtain ⟨pd', hpd', hrel⟩ := hsome pid (JVal.obj pr₅)
        (aget_aset_self (projectsOf res) pid (JVal.obj pr₅))
      have hedges₅ : aget pr₅ "service_account_edges" =
          some (JVal.list (edges.map JVal.str)) := by
        rw [hpr₅]
        exact aget_aset_self _ _ _
      rcases hrel with rfl | hrel
      · exact ⟨output_file_path od pid suffix, doc, ps', pid, pr₅, _, hwr,
          hps', hpd', hedges₅, List.mem_map_of_mem JVal.str hedge⟩
      · obtain ⟨kvs', hpd'eq, hkeys⟩ := hrel.1 pr₅ rfl
        have hpres : aget kvs' "service_account_edges" =
            aget pr₅ "service_account_edges" :=
          hkeys.1 "service_account_edges" (by decide)
        refine ⟨output_file_path od pid suffix, doc, ps', pid, kvs', _, hwr,
          hps', by rw [← hpd'eq]; exact hpd',
          hpres.trans hedges₅, List.mem_map_of_mem JVal.str hedge⟩

/-- Witness for C9 at a concrete run where impersonating `b@x.iam`
succeeds. -/
theorem c9_witness :
    processProject escEnv "out" "ts" false none saA ⟨[], [], cfgImp, none⟩
        init3 [("projectId", JVal.str "p1")] =
      .ok (⟨[⟨"b@x.iam", "t-b@x.iam", ["a"]⟩],
            [("out/p1-ts.json", [docEsc])], cfgImp,
            some (some [⟨["serviceAccount:b@x.iam"]⟩])⟩, [],
           some ("out/p1-ts.json", docEsc)) ∧
    (⟨"b@x.iam", "t-b@x.iam", ["a"]⟩ : SaTuple).chain_so_far = [] ++ ["a"] ∧
    (⟨"b@x.iam", "t-b@x.iam", ["a"]⟩ : SaTuple).chain_so_far.length =
      ([] : List String).length + 1 := by
  refine ⟨rfl, ?_, ?_⟩
  · obtain ⟨new, hq, hall⟩ := c9_chain_monotonicity.2 escEnv "out" "ts" false
      none saA ⟨[], [], cfgImp, none⟩ init3 [("projectId", JVal.str "p1")]
      (⟨[⟨"b@x.iam", "t-b@x.iam", ["a"]⟩],
        [("out/p1-ts.json", [docEsc])], cfgImp,
        some (some [⟨["serviceAccount:b@x.iam"]⟩])⟩) []
      (some ("out/p1-ts.json", docEsc)) rfl
    have hmem : (⟨"b@x.iam", "t-b@x.iam", ["a"]⟩ : SaTuple) ∈ new := by
      have : (⟨"b@x.iam", "t-b@x.iam", ["a"]⟩ : SaTuple) ∈ [] ++ new := by
        rw [← hq]
        exact List.mem_singleton_self _
      simpa using this
    exact (hall _ hmem).1
  · rfl

/-!
The configuration mutation of the resource-crawl dispatch loop.
-/

theorem is_set_update (c : Config) (cn : String)
    (settings : List (String × JVal)) (hget : aget c cn = some settings)
    (v : JVal) (s : String) :
    is_set (some (aset c cn (aset settings "gcs_output_path" v))) s =
      is_set (some c) s := by
  by_cases hs : s = cn
  · subst hs
    simp only [is_set, aget_aset_self, hget, agetD]
    rw [aget_aset_ne settings "gcs_output_path" "fetch" v (by decide)]
  · simp only [is_set, aget_aset_ne c cn s _ hs]

theorem crawl_resources_config (env : Env) (cred : Cred) (pid gcs : String) :
    ∀ (L : List (String × String)) (c : Config) (pr : Doc)
      (sc' : Option Config) (pr' : Doc),
      crawl_resources env cred pid gcs L (some c) pr = .ok (sc', pr') →
      (∀ s, is_set sc' s = is_set (some c) s) ∧
      (∀ rt, rt ∈ L.map Prod.fst → truthy (is_set (some c) rt) = true →
        ∃ c' settings, sc' = some c' ∧ aget c' rt = some settings ∧
          aget settings "gcs_output_path" = some (JVal.str gcs)) ∧
      (∀ rt settings, aget c rt = some settings →
        aget settings "gcs_output_path" = some (JVal.str gcs) →
        ∃ c' settings', sc' = some c' ∧ aget c' rt = some settings' ∧
          aget settings' "gcs_output_path" = some (JVal.str gcs)) := by
  intro L
  induction L with
  | nil =>
    intro c pr sc' pr' h
    simp only [crawl_resources] at h
    injection h with h
    rw [Prod.mk.injEq] at h
    obtain ⟨h₁, h₂⟩ := h
    subst h₁
    refine ⟨fun s => rfl, fun rt hrt _ => absurd hrt (List.not_mem_nil rt),
      fun rt settings hget hgcs => ⟨c, settings, rfl, hget, hgcs⟩⟩
  | cons x rest ih =>
    intro c pr sc' pr' h
    obtain ⟨cn, cln⟩ := x
    by_cases hen : truthy (is_set (some c) cn) = true
    · simp only [crawl_resources, if_pos hen] at h
      cases hget : aget c cn with
      | none => simp only [hget] at h; cases h
      | some settings =>
        simp only [hget] at h
        have ihc := ih (aset c cn (aset settings "gcs_output_path"
          (JVal.str gcs))) _ sc' pr' h
        obtain ⟨stab₁, enab₁, pres₁⟩ := ihc
        have hstab := is_set_update c cn settings hget (JVal.str gcs)
        refine ⟨fun s => (stab₁ s).trans (hstab s), ?_, ?_⟩
        · intro rt hrt hon
          rcases List.mem_cons.mp hrt with rfl | hrt'
          · exact pres₁ rt (aset settings "gcs_output_path" (JVal.str gcs))
              (aget_aset_self c rt _) (aget_aset_self settings _ _)
          · exact enab₁ rt hrt' (by rw [hstab rt]; exact hon)
        · intro rt settings₀ hget₀ hgcs₀
          by_cases hrt : rt = cn
          · subst hrt
            exact pres₁ rt (aset settings "gcs_output_path" (JVal.str gcs))
              (aget_aset_self c rt _) (aget_aset_self settings _ _)
          · exact pres₁ rt settings₀
              (by rw [aget_aset_ne c cn rt _ hrt]; exact hget₀) hgcs₀
    · simp only [crawl_resources, if_neg hen] at h
      have ihc := ih c pr sc' pr' h
      obtain ⟨stab₁, enab₁, pres₁⟩ := ihc
      refine ⟨stab₁, ?_, pres₁⟩
      intro rt hrt hon
      rcases List.mem_cons.mp hrt with rfl | hrt'
      · exact absurd hon hen
      · exact enab₁ rt hrt' hon

/-- C10: when a non-null scan configuration is supplied, the crawl dispatch
loop writes the key `gcs_output_path` (holding this project's GCS output
path) into the settings dictionary of every resource type that is enabled
in the configuration — mutating the caller's configuration object — so
whenever some enabled type's settings did not already hold exactly that
path, the configuration does not come back equal to what was supplied;
lifted to a full project iteration, the configuration landing in the world
state maps every enabled resource type to settings carrying the project's
GCS path. -/
theorem c10_gcs_path_mutation :
    (∀ env cred pid gcs (L : List (String × String)) c pr sc' pr',
      crawl_resources env cred pid gcs L (some c) pr = .ok (sc', pr') →
      ∀ rt, rt ∈ L.map Prod.fst → truthy (is_set (some c) rt) = true →
        ∃ c' settings, sc' = some c' ∧ aget c' rt = some settings ∧
          aget settings "gcs_output_path" = some (JVal.str gcs)) ∧
    (∀ env cred pid gcs (L : List (String × String)) c pr sc' pr',
      crawl_resources env cred pid gcs L (some c) pr = .ok (sc', pr') →
      (∃ rt, rt ∈ L.map Prod.fst ∧ truthy (is_set (some c) rt) = true ∧
        ∀ settings, aget c rt = some settings →
          aget settings "gcs_output_path" ≠ some (JVal.str gcs)) →
      sc' ≠ some c) ∧
    (∀ env od suffix light tp sa w res project w' res' path doc c,
      processProject env od suffix light tp sa w res project =
        .ok (w', res', some (path, doc)) →
      w.scan_config = some c →
      ∃ pid, aget project "projectId" = some (JVal.str pid) ∧
        ∀ rt, rt ∈ crawl_client_map.map Prod.fst →
          truthy (is_set (some c) rt) = true →
          ∃ c' settings, w'.scan_config = some c' ∧
            aget c' rt = some settings ∧
            aget settings "gcs_output_path" =
              some (JVal.str (gcs_file_path od pid suffix))) := by
  refine ⟨?_, ?_, ?_⟩
  · intro env cred pid gcs L c pr sc' pr' h rt hrt hon
    exact (crawl_resources_config env cred pid gcs L c pr sc' pr' h).2.1
      rt hrt hon
  · intro env cred pid gcs L c pr sc' pr' h hbad hsc
    obtain ⟨rt, hrt, hon, hnone⟩ := hbad
    obtain ⟨c', settings, hc', hget, hgcs⟩ :=
      (crawl_resources_config env cred pid gcs L c pr sc' pr' h).2.1 rt hrt hon
    rw [hsc] at hc'
    injection hc' with hc'
    subst hc'
    exact hnone settings hget hgcs
  · intro env od suffix light tp sa w res project w' res' path doc c h hsc
    obtain ⟨pid, hpid, hcase⟩ := processProject_ok env od suffix light tp sa
      w res project w' res' (some (path, doc)) h
    rcases hcase with ⟨_, _, _, hwr⟩ | ⟨_, sc', pr₂, ipv', queue', pr₅,
      files₂, doc', hcr, hesc, hsave, hw, hres, hwr⟩
    · cases hwr
    · rw [hsc] at hcr
      refine ⟨pid, hpid, fun rt hrt hon => ?_⟩
      obtain ⟨c', settings, hc', hget, hgcs⟩ :=
        (crawl_resources_config env sa.credentials pid
          (gcs_file_path od pid suffix) crawl_client_map c _ sc' pr₂ hcr).2.1
          rt hrt hon
      exact ⟨c', settings, by rw [hw]; exact hc', hget, hgcs⟩

/-- Witness for C10 at a concrete run with the `kms` crawler enabled. -/
theorem c10_witness :
    processProject trivEnv "out" "ts" false none saA ⟨[], [], cfgKms, none⟩
        init3 [("projectId", JVal.str "p1")] =
      .ok (⟨[], [("out/p1-ts.json", [docKms])],
            some [("kms", [("fetch", JVal.bool true),
                           ("gcs_output_path", JVal.str "out/gcs-p1-ts.json")])],
            none⟩, [], some ("out/p1-ts.json", docKms)) ∧
    aget [("fetch", JVal.bool true),
          ("gcs_output_path", JVal.str "out/gcs-p1-ts.json")]
        "gcs_output_path" = some (JVal.str (gcs_file_path "out" "p1" "ts")) := by
  refine ⟨rfl, ?_⟩
  obtain ⟨pid, hpid, hall⟩ := c10_gcs_path_mutation.2.2 trivEnv "out" "ts"
    false none saA ⟨[], [], cfgKms, none⟩ init3 [("projectId", JVal.str "p1")]
    (⟨[], [("out/p1-ts.json", [docKms])],
      some [("kms", [("fetch", JVal.bool true),
                     ("gcs_output_path", JVal.str "out/gcs-p1-ts.json")])],
      none⟩) [] "out/p1-ts.json" docKms [("kms", [("fetch", JVal.bool true)])]
    rfl rfl
  have hpid' : pid = "p1" := by
    rw [show aget [("projectId", JVal.str "p1")] "projectId" =
      some (JVal.str "p1") from rfl] at hpid
    injection hpid with hpid
    injection hpid with hpid
    exact hpid.symm
  subst hpid'
  obtain ⟨c', settings, h1, h2, h3⟩ := hall "kms" (by decide) rfl
  injection h1 with h1
  subst h1
  rw [show aget [("kms", [("fetch", JVal.bool true),
        ("gcs_output_path", JVal.str "out/gcs-p1-ts.json")])] "kms" =
      some [("fetch", JVal.bool true),
            ("gcs_output_path", JVal.str "out/gcs-p1-ts.json")] from rfl] at h2
  injection h2 with h2
  subst h2
  exact h3

/-- Witness for C8 at a concrete run. -/
theorem c8_witness :
    crawl_loop trivEnv [saA] "out" (some []) false none [] "ts" 2 =
      .ok ⟨⟨[], [("out/p1-ts.json", [docFor "a" "p1"])], some [], none⟩, ["a"]⟩ ∧
    (["a"] : List String).Nodup :=
  ⟨rfl, c8_dedup_invariant.2.1 trivEnv [saA] "out" (some []) false none [] "ts" 2
    ⟨⟨[], [("out/p1-ts.json", [docFor "a" "p1"])], some [], none⟩, ["a"]⟩ rfl⟩

/-!
What the per-identity project fold writes.
-/

theorem processProjects_written (env : Env) (od suffix : String)
    (light : Bool) (tp : Option String) (sa : SaTuple) :
    ∀ (plist : List Project) (w : WorldState) (res : Doc)
      (acc : List (String × Doc)) (w' : WorldState)
      (written : List (String × Doc)),
      processProjects env od suffix light tp sa plist w res acc =
        .ok (w', written) →
      ∃ new, written = acc ++ new ∧
        (∀ pd ∈ new, ∃ ps, aget pd.2 "projects" = some (JVal.obj ps)) ∧
        (new = [] ∨ ∃ d₁ rest', new = d₁ :: rest' ∧
          (∀ k, k ≠ "projects" → aget d₁.2 k = aget res k) ∧
          ∀ pd ∈ rest',
            aget pd.2 "service_account_chain" = none ∧
            aget pd.2 "current_service_account" = none ∧
            aget pd.2 "token_scopes" = none) := by
  intro plist
  induction plist with
  | nil =>
    intro w res acc w' written h
    simp only [processProjects] at h
    injection h with h
    rw [Prod.mk.injEq] at h
    obtain ⟨h₁, h₂⟩ := h
    exact ⟨[], by rw [← h₂, List.append_nil], fun pd hpd =>
      absurd hpd (List.not_mem_nil pd), Or.inl rfl⟩
  | cons p rest ih =>
    intro w res acc w' written h
    cases hpp : processProject env od suffix light tp sa w res p with
    | error e => simp only [processProjects, hpp] at h; cases h
    | ok r =>
      obtain ⟨w₁, res₁, wr⟩ := r
      simp only [processProjects, hpp] at h
      obtain ⟨pid, hpid, hcase⟩ := processProject_ok env od suffix light tp sa
        w res p w₁ res₁ wr hpp
      rcases hcase with ⟨_, hw1, hres1, hwr⟩ | ⟨_, sc', pr₂, ipv', queue',
        pr₅, files₂, doc, hcr, hesc, hsave, hw1, hres1, hwr⟩
      · subst hwr
        rw [hres1] at h
        obtain ⟨new, hweq, hproj, hhead⟩ := ih w₁ res (acc ++ []) w' written h
        rw [List.append_nil] at hweq
        exact ⟨new, hweq, hproj, hhead⟩
      · subst hwr
        rw [hres1] at h
        obtain ⟨new₁, hweq, hproj, hhead⟩ := ih w₁ []
          (acc ++ [(output_file_path od pid suffix, doc)]) w' written h
        obtain ⟨hfs, htop, hprojdoc⟩ := save_results_doc _ _ _ _ _ _ hsave
        obtain ⟨ps', hps', _⟩ := hprojdoc _ (aget_aset_self res "projects" _)
        refine ⟨(output_file_path od pid suffix, doc) :: new₁, ?_, ?_, ?_⟩
        · rw [hweq, List.append_assoc]
          rfl
        · intro pd hpd
          rcases List.mem_cons.mp hpd with rfl | hpd'
          · exact ⟨ps', hps'⟩
          · exact hproj pd hpd'
        · refine Or.inr ⟨(output_file_path od pid suffix, doc), new₁, rfl,
            ?_, ?_⟩
          · intro k hk
            rw [htop k hk, aget_aset_ne res "projects" k _ hk]
          · intro pd hpd
            rcases hhead with rfl | ⟨d₂, rest₂, hnew₁, hd₂, hrest₂⟩
            · cases hpd
            · subst hnew₁
              rcases List.mem_cons.mp hpd with rfl | hpd'
              · exact ⟨hd₂ "service_account_chain" (by decide),
                       hd₂ "current_service_account" (by decide),
                       hd₂ "token_scopes" (by decide)⟩
              · exact hrest₂ pd hpd'

/-- C3 amended: every persisted document has the top-level key `projects`,
and the *first* document persisted for an identity carries
`service_account_chain`, `current_service_account` and `token_scopes` with
the identity's data — but because `sa_results.clear()` runs after every
save, the documents for the second and all later projects of the same
identity do *not* contain those three keys. -/
theorem c3_amended :
    ∀ env od suffix light tp force sa w w' written,
      processIdentity env od suffix light tp force sa w = .ok (w', written) →
      (∀ pd ∈ written, ∃ ps, aget pd.2 "projects" = some (JVal.obj ps)) ∧
      (∀ d₁ rest', written = d₁ :: rest' →
        aget d₁.2 "service_account_chain" =
          some (JVal.list (sa.chain_so_far.map JVal.str)) ∧
        aget d₁.2 "current_service_account" = some (JVal.str sa.sa_name) ∧
        aget d₁.2 "token_scopes" = some (env.scopes sa.credentials) ∧
        ∀ pd ∈ rest',
          aget pd.2 "service_account_chain" = none ∧
          aget pd.2 "current_service_account" = none ∧
          aget pd.2 "token_scopes" = none) := by
  intro env od suffix light tp force sa w w' written h
  simp only [processIdentity] at h
  obtain ⟨new, hweq, hproj, hhead⟩ := processProjects_written env od suffix
    light tp sa _ _ _ _ w' written h
  rw [List.nil_append] at hweq
  subst hweq
  refine ⟨hproj, fun d₁ rest' hw => ?_⟩
  rcases hhead with hnil | ⟨d₁', rest'', hcons, hd₁, hrest⟩
  · rw [hnil] at hw
    cases hw
  · rw [hcons] at hw
    injection hw with hw₁ hw₂
    subst hw₁
    subst hw₂
    exact ⟨(hd₁ "service_account_chain" (by decide)).trans rfl,
           (hd₁ "current_service_account" (by decide)).trans rfl,
           (hd₁ "token_scopes" (by decide)).trans rfl,
           hrest⟩

theorem crawl_resources_pr (env : Env) (cred : Cred) (pid gcs : String) :
    ∀ (L : List (String × String)) (sc : Option Config) (pr : Doc)
      (sc' : Option Config) (pr' : Doc),
      crawl_resources env cred pid gcs L sc pr = .ok (sc', pr') →
      ∀ k, (truthy (is_set sc k) = false ∨ k ∉ L.map Prod.fst) →
        aget pr' k = aget pr k := by
  intro L
  induction L with
  | nil =>
    intro sc pr sc' pr' h k _
    simp only [crawl_resources] at h
    injection h with h
    rw [Prod.mk.injEq] at h
    rw [← h.2]
  | cons x rest ih =>
    intro sc pr sc' pr' h k hk
    obtain ⟨cn, cln⟩ := x
    by_cases hen : truthy (is_set sc cn) = true
    · have hkcn : k ≠ cn := by
        rcases hk with hdis | hnot
        · intro he
          rw [he] at hdis
          rw [hdis] at hen
          cases hen
        · intro he
          refine hnot ?_
          rw [List.map_cons, he]
          exact List.mem_cons_self _ _
      have hktail : ∀ sc₁ : Option Config, (∀ s, is_set sc₁ s = is_set sc s) →
          (truthy (is_set sc₁ k) = false ∨ k ∉ rest.map Prod.fst) := by
        intro sc₁ hstab
        rcases hk with hdis | hnot
        · exact Or.inl (by rw [hstab k]; exact hdis)
        · refine Or.inr (fun hm => hnot ?_)
          rw [List.map_cons]
          exact List.mem_cons_of_mem _ hm
      cases sc with
      | none =>
        simp only [crawl_resources, if_pos hen] at h
        rw [ih none _ sc' pr' h k (hktail none (fun s => rfl)),
            aget_aset_ne pr cn k _ hkcn]
      | some c =>
        simp only [crawl_resources, if_pos hen] at h
        cases hget : aget c cn with
        | none => simp only [hget] at h; cases h
        | some settings =>
          simp only [hget] at h
          rw [ih _ _ sc' pr' h k
              (hktail _ (is_set_update c cn settings hget (JVal.str gcs))),
            aget_aset_ne pr cn k _ hkcn]
    · simp only [crawl_resources, if_neg hen] at h
      refine ih sc pr sc' pr' h k ?_
      rcases hk with hdis | hnot
      · exact Or.inl hdis
      · refine Or.inr (fun hm => hnot ?_)
        rw [List.map_cons]
        exact List.mem_cons_of_mem _ hm

theorem gke_step_pr (env : Env) (sc : Option Config) (pid : String)
    (cred : Cred) (pr : Doc) (k : String)
    (h₁ : k ≠ "gke_clusters") (h₂ : k ≠ "gke_images") :
    aget (gke_step env sc pid cred pr) k = aget pr k := by
  simp only [gke_step]
  by_cases hb : truthy (is_set sc "gke_images") = true
  · rw [if_pos hb, aget_aset_ne _ _ _ _ h₂]
    by_cases ha : truthy (is_set sc "gke_clusters") = true
    · rw [if_pos ha, aget_aset_ne _ _ _ _ h₁]
    · rw [if_neg ha]
  · rw [if_neg hb]
    by_cases ha : truthy (is_set sc "gke_clusters") = true
    · rw [if_pos ha, aget_aset_ne _ _ _ _ h₁]
    · rw [if_neg ha]

theorem processProjects_member (env : Env) (od suffix : String)
    (light : Bool) (sa : SaTuple) :
    ∀ (plist : List Project) (w : WorldState) (res : Doc)
      (acc : List (String × Doc)) (w' : WorldState)
      (written : List (String × Doc)),
      processProjects env od suffix light none sa plist w res acc =
        .ok (w', written) →
      truthy (is_set w.scan_config "project_info") = false →
      ∀ p ∈ plist, ∃ pid path doc ps pr,
        aget p "projectId" = some (JVal.str pid) ∧
        (path, doc) ∈ written ∧
        aget doc "projects" = some (JVal.obj ps) ∧
        aget ps pid = some (JVal.obj pr) ∧
        aget pr "project_info" = some (JVal.obj p) := by
  intro plist
  induction plist with
  | nil =>
    intro w res acc w' written h hdis p hp
    cases hp
  | cons p₀ rest ih =>
    intro w res acc w' written h hdis p hp
    cases hpp : processProject env od suffix light none sa w res p₀ with
    | error e => simp only [processProjects, hpp] at h; cases h
    | ok r =>
      obtain ⟨w₁, res₁, wr⟩ := r
      simp only [processProjects, hpp] at h
      obtain ⟨pid, hpid, hcase⟩ := processProject_ok env od suffix light none
        sa w res p₀ w₁ res₁ wr hpp
      rcases hcase with ⟨hskip, _, _, _⟩ | ⟨_, sc', pr₂, ipv', queue', pr₅,
        files₂, doc, hcr, hesc, hsave, hw1, hres1, hwr⟩
      · rw [show target_skip none pid = false from rfl] at hskip
        cases hskip
      · subst hwr
        rw [hres1] at h
        cases hsc : w.scan_config with
        | none =>
          rw [hsc] at hdis
          exact absurd hdis (by decide)
        | some c =>
          rw [hsc] at hcr hdis
          have hstab := (crawl_resources_config env sa.credentials pid
            (gcs_file_path od pid suffix) crawl_client_map c _ sc' pr₂ hcr).1
          have hdis₁ : truthy (is_set sc' "project_info") = false := by
            rw [hstab "project_info"]
            exact hdis
          rcases List.mem_cons.mp hp with rfl | hp'
          · have hpr₂ : aget pr₂ "project_info" = some (JVal.obj p) := by
              rw [crawl_resources_pr env sa.credentials pid
                  (gcs_file_path od pid suffix) crawl_client_map (some c) _
                  sc' pr₂ hcr "project_info" (Or.inl hdis),
                aget_aset_self]
            have hpr₄ : aget (gke_step env sc' pid sa.credentials pr₂)
                "project_info" = some (JVal.obj p) := by
              rw [gke_step_pr env sc' pid sa.credentials pr₂ "project_info"
                (by decide) (by decide)]
              exact hpr₂
            obtain ⟨newq, edges, hq, hpr₅, _⟩ := escalation_step_char env
              sa.credentials pid (sa.chain_so_far ++ [sa.sa_name]) sc'
              w.iam_policy_var w.queue
              (gke_step env sc' pid sa.credentials pr₂) ipv' queue' pr₅ hesc
            have hpr₅pi : aget pr₅ "project_info" = some (JVal.obj p) := by
              rw [hpr₅, aget_aset_ne _ _ _ _ (by decide)]
              exact hpr₄
            obtain ⟨hfs, htop, hproj⟩ := save_results_doc _ _ _ _ _ _ hsave
            obtain ⟨ps', hps', hsome⟩ := hproj _
              (aget_aset_self res "projects" _)
            obtain ⟨pd', hpd', hrel⟩ := hsome pid (JVal.obj pr₅)
              (aget_aset_self (projectsOf res) pid _)
            obtain ⟨new₂, hweq, _, _⟩ := processProjects_written env od suffix
              light none sa rest w₁ [] _ w' written h
            have hmem : (output_file_path od pid suffix, doc) ∈ written := by
              rw [hweq]
              exact List.mem_append_left _
                (List.mem_append_right _ (List.mem_singleton_self _))
            rcases hrel with rfl | hrel
            · exact ⟨pid, output_file_path od pid suffix, doc, ps', pr₅,
                hpid, hmem, hps', hpd', hpr₅pi⟩
            · obtain ⟨kvs', hpd'eq, hkeys⟩ := hrel.1 pr₅ rfl
              refine ⟨pid, output_file_path od pid suffix, doc, ps', kvs',
                hpid, hmem, hps', by rw [← hpd'eq]; exact hpd', ?_⟩
              rw [hkeys.1 "project_info" (by decide)]
              exact hpr₅pi
          · refine ih w₁ [] _ w' written h ?_ p hp'
            rw [hw1]
            exact hdis₁

/-- C7 amended: forced projects always appear under `projects` in the
identity's output when no single-target-project filter is given (a
non-matching filter drops them), and the recorded `project_info` is the
fetched metadata or — when the lookup fails — the synthesized placeholder
with `projectNumber = "N/A"`, provided the `project_info` resource crawler
is disabled in the configuration (when enabled, it overwrites that field
with its own result). -/
theorem c7_amended :
    ∀ env od suffix light force sa w w' written fid,
      processIdentity env od suffix light none force sa w = .ok (w', written) →
      truthy (is_set w.scan_config "project_info") = false →
      fid ∈ force →
      ∃ pid path doc ps pr,
        aget (forced_project_entry env sa.credentials fid) "projectId" =
          some (JVal.str pid) ∧
        (path, doc) ∈ written ∧
        aget doc "projects" = some (JVal.obj ps) ∧
        aget ps pid = some (JVal.obj pr) ∧
        aget pr "project_info" =
          some (JVal.obj (forced_project_entry env sa.credentials fid)) ∧
        ((env.project_info fid sa.credentials).isEmpty = true →
          forced_project_entry env sa.credentials fid =
            [("projectId", JVal.str fid),
             ("projectNumber", JVal.str "N/A")] ∧
          aget (forced_project_entry env sa.credentials fid) "projectNumber" =
            some (JVal.str "N/A")) := by
  intro env od suffix light force sa w w' written fid h hdis hfid
  have hfe : force.isEmpty = false := by
    cases force with
    | nil => cases hfid
    | cons x xs => rfl
  have hcond : ¬(force.isEmpty = true) := by
    rw [hfe]
    exact Bool.false_ne_true
  simp only [processIdentity, if_neg hcond] at h
  have hpmem : forced_project_entry env sa.credentials fid ∈
      env.project_list sa.credentials ++
        forced_projects env sa.credentials force :=
    List.mem_append_right _
      (List.mem_map_of_mem (forced_project_entry env sa.credentials) hfid)
  obtain ⟨pid, path, doc, ps, pr, hpid, hmem, hdoc, hps, hpr⟩ :=
    processProjects_member env od suffix light sa _ w _ [] w' written h hdis
      (forced_project_entry env sa.credentials fid) hpmem
  refine ⟨pid, path, doc, ps, pr, hpid, hmem, hdoc, hps, hpr, fun hempty => ?_⟩
  have : forced_project_entry env sa.credentials fid =
      [("projectId", JVal.str fid), ("projectNumber", JVal.str "N/A")] := by
    simp [forced_project_entry, hempty]
  exact ⟨this, by rw [this]; rfl⟩

/-- Witness for C7 amended at a concrete run forcing project `beta` whose
metadata lookup fails. -/
theorem c7_witness :
    processIdentity noProjEnv "out" "ts" false none ["beta"] saA w0 =
      .ok (⟨[], [("out/beta-ts.json", [docBeta])], some [], none⟩,
           [("out/beta-ts.json", docBeta)]) ∧
    aget (forced_project_entry noProjEnv "ca" "beta") "projectNumber" =
      some (JVal.str "N/A") := by
  refine ⟨rfl, ?_⟩
  obtain ⟨pid, path, doc, ps, pr, h1, h2, h3, h4, h5, h6⟩ :=
    c7_amended noProjEnv "out" "ts" false ["beta"] saA w0
      ⟨[], [("out/beta-ts.json", [docBeta])], some [], none⟩
      [("out/beta-ts.json", docBeta)] "beta" rfl rfl
      (List.mem_singleton_self _)
  exact (h6 rfl).2

/-- Witness for C3 amended at a concrete single-project run. -/
theorem c3_witness :
    processIdentity trivEnv "out" "ts" false none [] saA w0 =
      .ok (⟨[], [("out/p1-ts.json", [docFor "a" "p1"])], some [], none⟩,
           [("out/p1-ts.json", docFor "a" "p1")]) ∧
    aget (docFor "a" "p1") "service_account_chain" =
      some (JVal.list []) := by
  refine ⟨rfl, ?_⟩
  have h := (c3_amended trivEnv "out" "ts" false none [] saA w0
    ⟨[], [("out/p1-ts.json", [docFor "a" "p1"])], some [], none⟩
    [("out/p1-ts.json", docFor "a" "p1")] rfl).2
    ("out/p1-ts.json", docFor "a" "p1") [] rfl
  exact h.1

end GcpScanner
